import Mathlib

/-!
Shallow embedding of the fuel-route optimizer core
(`fuel_optimizer/services/optimizer_v2.py`).

Numbers are modelled by rationals (`ℚ`); Python's `float('inf')` sentinel in
the DP array is modelled by `WithTop ℚ` (`⊤` plays the role of infinity, with
`⊤ + x = ⊤` and `⊤ < ⊤` false, matching IEEE `inf` in the comparisons the code
performs).  Python's `round(x, n)` is modelled as round-half-up on rationals.

The routing service and the geometric corridor filter are external to the
planner (the filter's output, a chainage-sorted `(station, chainage)` list, is
taken as the planner's input), so `optimize_route` is embedded from the point
where the route distance and the filtered on-route station list are in hand.
-/

/-- `VEHICLE_RANGE_MILES = 500` from the source. -/
def VEHICLE_RANGE_MILES : ℚ := 500

/-- `FUEL_EFFICIENCY_MPG = 10` from the source. -/
def FUEL_EFFICIENCY_MPG : ℚ := 10

/-- Model of Python's `round(x, ndigits)` on rationals (round half up). -/
def roundTo (ndigits : ℕ) (x : ℚ) : ℚ :=
  ((round (x * 10 ^ ndigits) : ℤ) : ℚ) / 10 ^ ndigits

/-- `round(x, 2)`. -/
def round2 (x : ℚ) : ℚ := roundTo 2 x

/-- `round(x, 3)`. -/
def round3 (x : ℚ) : ℚ := roundTo 3 x

/-- The fields of the `FuelStation` model read by the optimizer. -/
structure FuelStation where
  truckstop_name : String
  address : String
  city : String
  state : String
  latitude : ℚ
  longitude : ℚ
  retail_price : ℚ
deriving DecidableEq, Repr

/-- The `OptimizedFuelStop` dataclass. -/
structure OptimizedFuelStop where
  name : String
  address : String
  city : String
  state : String
  latitude : ℚ
  longitude : ℚ
  price_per_gallon : ℚ
  gallons_needed : ℚ
  cost : ℚ
  miles_from_start : ℚ
deriving DecidableEq, Repr

/-- The fields of `OptimizedRouteResult` the planner computes (route geometry
and endpoint echo fields, which are passed through verbatim from the external
routing result, are omitted). -/
structure OptimizedRouteResult where
  fuel_stops : List OptimizedFuelStop
  total_fuel_cost : ℚ
  total_gallons : ℚ
  optimization_method : String
  stations_considered : ℕ
deriving DecidableEq, Repr

/-- Default element for out-of-range list indexing (never reached on the
index ranges the code uses). -/
def dummyOnRoute : FuelStation × ℚ := (⟨"", "", "", "", 0, 0, 0⟩, 0)

/-- `on_route_stations[k]`. -/
def stGet (sts : List (FuelStation × ℚ)) (k : ℕ) : FuelStation × ℚ :=
  sts.getD k dummyOnRoute

/-- `on_route_stations[k][1]`: the chainage of station `k`. -/
def stPos (sts : List (FuelStation × ℚ)) (k : ℕ) : ℚ := (stGet sts k).2

/-- `on_route_stations[k][0].retail_price`. -/
def stPrice (sts : List (FuelStation × ℚ)) (k : ℕ) : ℚ :=
  (stGet sts k).1.retail_price

/-- Chainage of DP node `i`: node `0` is the virtual start (chainage 0),
node `sts.length + 1` is the virtual end (chainage `route_distance`), and
node `i` with `1 ≤ i ≤ sts.length` is station `i - 1`. -/
def posOf (route_distance : ℚ) (sts : List (FuelStation × ℚ)) (i : ℕ) : ℚ :=
  if i = 0 then 0
  else if i = sts.length + 1 then route_distance
  else stPos sts (i - 1)

/-- Arrival (refuel) cost at DP node `i`: `0` at the virtual end, otherwise a
full tank priced at station `i - 1` (`gallons = range / efficiency`). -/
def costOf (sts : List (FuelStation × ℚ)) (i : ℕ) : ℚ :=
  if i = sts.length + 1 then 0
  else (VEHICLE_RANGE_MILES / FUEL_EFFICIENCY_MPG) * stPrice sts (i - 1)

/-- One iteration of the DP's inner loop (`for j in range(i)` body in the
source): skip predecessors beyond vehicle range, otherwise replace the
accumulated `(best, parent)` when `dp[j] + refuel_cost < best`. -/
def relaxStep (route_distance : ℚ) (sts : List (FuelStation × ℚ))
    (dpPrev : ℕ → WithTop ℚ) (i : ℕ) (acc : WithTop ℚ × Int) (j : ℕ) :
    WithTop ℚ × Int :=
  if posOf route_distance sts i - posOf route_distance sts j >
      VEHICLE_RANGE_MILES then acc
  else if dpPrev j + (costOf sts i : WithTop ℚ) < acc.1 then
    (dpPrev j + (costOf sts i : WithTop ℚ), (j : Int))
  else acc

/-- The inner relaxation loop of the DP, starting from `(inf, -1)`. -/
def relaxFrom (route_distance : ℚ) (sts : List (FuelStation × ℚ))
    (dpPrev : ℕ → WithTop ℚ) (i : ℕ) : WithTop ℚ × Int :=
  (List.range i).foldl (relaxStep route_distance sts dpPrev i) (⊤, -1)

/-- The DP table after processing nodes `0..m`: entry `i` holds
`(dp[i], parent[i])`.  Node `0` is the base case `dp[0] = 0, parent[0] = -1`;
node `i + 1` is relaxed from the (final) values of nodes `≤ i`, exactly as the
source's in-place `for i in range(1, n + 2)` loop does. -/
def dpTable (route_distance : ℚ) (sts : List (FuelStation × ℚ)) :
    ℕ → List (WithTop ℚ × Int)
  | 0 => [((0 : WithTop ℚ), (-1 : Int))]
  | m + 1 =>
    let t := dpTable route_distance sts m
    t ++ [relaxFrom route_distance sts
      (fun j => ((t.get? j).map Prod.fst).getD ⊤) (m + 1)]

/-- `(dp[i], parent[i])` of the completed table. -/
def dpEntry (route_distance : ℚ) (sts : List (FuelStation × ℚ)) (i : ℕ) :
    WithTop ℚ × Int :=
  ((dpTable route_distance sts i).get? i).getD (⊤, -1)

/-- `dp[i]`. -/
def dpv (route_distance : ℚ) (sts : List (FuelStation × ℚ)) (i : ℕ) :
    WithTop ℚ :=
  (dpEntry route_distance sts i).1

/-- `parent[i]`. -/
def par (route_distance : ℚ) (sts : List (FuelStation × ℚ)) (i : ℕ) : Int :=
  (dpEntry route_distance sts i).2

/-- The backtracking loop: walk `parent` pointers from `current`, collecting
`prev - 1` for every parent that is neither the virtual start nor the virtual
end, in chainage order (the source collects in reverse and then reverses).
`fuel` bounds the walk; `fuel = n + 2` suffices since parents strictly
decrease. -/
def backtrack (endIdx : ℕ) (parent : ℕ → Int) : ℕ → ℕ → List ℕ
  | 0, _ => []
  | fuel + 1, current =>
    let p := parent current
    if p = -1 then []
    else
      let prev := p.toNat
      backtrack endIdx parent fuel prev ++
        (if prev ≠ 0 ∧ prev ≠ endIdx then [prev - 1] else [])

/-- The station indices (0-based into `on_route_stations`) selected by the DP,
or `none` when `dp[END]` is still infinite (the source then falls back to the
greedy pass). -/
def dp_path_indices (route_distance : ℚ) (sts : List (FuelStation × ℚ)) :
    Option (List ℕ) :=
  let n := sts.length
  if dpv route_distance sts (n + 1) = ⊤ then none
  else some (backtrack (n + 1) (par route_distance sts) (n + 2) (n + 1))

/-- Construction of an `OptimizedFuelStop` from a chosen station and its
chainage — the field-by-field construction shared verbatim by the DP
backtrack and the greedy fallback in the source: a full-tank refuel priced at
the station. -/
def mkFullTankStop (station : FuelStation) (chainage : ℚ) : OptimizedFuelStop :=
  let gallons_refueled := VEHICLE_RANGE_MILES / FUEL_EFFICIENCY_MPG
  { name := station.truckstop_name
    address := station.address
    city := station.city
    state := station.state
    latitude := station.latitude
    longitude := station.longitude
    price_per_gallon := round3 station.retail_price
    gallons_needed := round2 gallons_refueled
    cost := round2 (gallons_refueled * station.retail_price)
    miles_from_start := round2 chainage }

/-- Materialization of the backtracked index path as stops (the source also
computes `gallons_to_here` from the previous chainage, but never uses it). -/
def buildStops (sts : List (FuelStation × ℚ)) (idxs : List ℕ) :
    List OptimizedFuelStop :=
  idxs.map (fun idx => mkFullTankStop (stGet sts idx).1 (stGet sts idx).2)

/-- One step of the greedy fallback fold.  State: `(stops, current_range,
prev_chainage)`.  A station is taken when the distance since the last stop
reaches `current_range - 50`; `current_range` is then reset to the full
vehicle range (it is never decremented elsewhere in the source). -/
def greedyStep (acc : List OptimizedFuelStop × ℚ × ℚ) (p : FuelStation × ℚ) :
    List OptimizedFuelStop × ℚ × ℚ :=
  let distance_from_prev := p.2 - acc.2.2
  if distance_from_prev ≥ acc.2.1 - 50 then
    (acc.1 ++ [mkFullTankStop p.1 p.2], VEHICLE_RANGE_MILES, p.2)
  else acc

/-- `_greedy_fallback` (the `route_distance` argument is unused, as in the
source). -/
def greedy_fallback (route_distance : ℚ) (sts : List (FuelStation × ℚ)) :
    List OptimizedFuelStop :=
  (sts.foldl greedyStep ([], VEHICLE_RANGE_MILES, 0)).1

/-- The `(station, chainage)` pairs the greedy fallback chooses (same fold,
recording the source pair instead of the built stop). -/
def greedyChosenStep (acc : List (FuelStation × ℚ) × ℚ × ℚ)
    (p : FuelStation × ℚ) : List (FuelStation × ℚ) × ℚ × ℚ :=
  if p.2 - acc.2.2 ≥ acc.2.1 - 50 then
    (acc.1 ++ [p], VEHICLE_RANGE_MILES, p.2)
  else acc

/-- Chosen `(station, chainage)` pairs of the greedy fallback. -/
def greedy_chosen (route_distance : ℚ) (sts : List (FuelStation × ℚ)) :
    List (FuelStation × ℚ) :=
  (sts.foldl greedyChosenStep ([], VEHICLE_RANGE_MILES, 0)).1

/-- `_find_optimal_stops_dp`: empty input short-circuits to `[]`; otherwise
run the DP, fall back to greedy when `dp[END]` is infinite, else materialize
the backtracked path. -/
def find_optimal_stops_dp (route_distance : ℚ)
    (sts : List (FuelStation × ℚ)) : List OptimizedFuelStop :=
  if sts = [] then []
  else
    match dp_path_indices route_distance sts with
    | none => greedy_fallback route_distance sts
    | some idxs => buildStops sts idxs

/-- `_create_empty_result` (totals and labelling fields). -/
def create_empty_result (route_distance : ℚ) (method : String)
    (stations_considered : ℕ) : OptimizedRouteResult :=
  { fuel_stops := []
    total_fuel_cost := 0
    total_gallons := round2 (route_distance / FUEL_EFFICIENCY_MPG)
    optimization_method := method
    stations_considered := stations_considered }

/-- `optimize_route` from the point where the routing result's
`distance_miles` and the corridor filter's on-route station list are in
hand: empty corridor short-circuits to the `"no_stations"` empty result;
otherwise the DP plan (or its greedy fallback) is assembled with
`total_gallons = route_distance / efficiency` and the fixed
`"dynamic_programming"` label. -/
def optimize_route (route_distance : ℚ)
    (on_route_stations : List (FuelStation × ℚ)) : OptimizedRouteResult :=
  if on_route_stations = [] then
    create_empty_result route_distance "no_stations" 0
  else
    let optimal_stops := find_optimal_stops_dp route_distance on_route_stations
    let total_gallons := route_distance / FUEL_EFFICIENCY_MPG
    let total_cost := (optimal_stops.map (fun s => s.cost)).sum
    { fuel_stops := optimal_stops
      total_fuel_cost := round2 total_cost
      total_gallons := round2 total_gallons
      optimization_method := "dynamic_programming"
      stations_considered := on_route_stations.length }

/-! ### DP table infrastructure -/

theorem dpTable_length (rd : ℚ) (sts : List (FuelStation × ℚ)) (m : ℕ) :
    (dpTable rd sts m).length = m + 1 := by
  induction m with
  | zero => rfl
  | succ m ih => simp [dpTable, ih]

theorem dpTable_get?_of_le (rd : ℚ) (sts : List (FuelStation × ℚ)) :
    ∀ m i, i ≤ m → (dpTable rd sts m).get? i = some (dpEntry rd sts i) := by
  intro m
  induction m with
  | zero =>
    intro i hi
    have h0 : i = 0 := Nat.le_zero.mp hi
    subst h0
    rfl
  | succ m ih =>
    intro i hi
    rcases Nat.lt_succ_iff_lt_or_eq.mp (Nat.lt_succ_of_le hi) with h | h
    · have hlt : i < (dpTable rd sts m).length := by
        rw [dpTable_length]; omega
      have : (dpTable rd sts (m + 1)).get? i = (dpTable rd sts m).get? i := by
        rw [dpTable]
        exact List.get?_append hlt
      rw [this]
      exact ih i (by omega)
    · subst h
      have hlen : (dpTable rd sts m).length = m + 1 := dpTable_length rd sts m
      have hget : (dpTable rd sts (m + 1)).get? (m + 1) =
          some (relaxFrom rd sts
            (fun j => (((dpTable rd sts m).get? j).map Prod.fst).getD ⊤)
            (m + 1)) := by
        rw [dpTable]
        rw [← hlen]
        exact List.get?_concat_length _ _
      rw [hget, dpEntry, hget]
      rfl

theorem dpv_zero (rd : ℚ) (sts : List (FuelStation × ℚ)) : dpv rd sts 0 = 0 :=
  rfl

theorem par_zero (rd : ℚ) (sts : List (FuelStation × ℚ)) : par rd sts 0 = -1 :=
  rfl

theorem foldl_relaxStep_congr (rd : ℚ) (sts : List (FuelStation × ℚ))
    (f g : ℕ → WithTop ℚ) (i : ℕ) :
    ∀ (l : List ℕ) (acc : WithTop ℚ × Int), (∀ j ∈ l, f j = g j) →
      l.foldl (relaxStep rd sts f i) acc = l.foldl (relaxStep rd sts g i) acc := by
  intro l
  induction l with
  | nil => intro acc _; rfl
  | cons a l ih =>
    intro acc h
    simp only [List.foldl_cons]
    have ha : relaxStep rd sts f i acc a = relaxStep rd sts g i acc a := by
      simp [relaxStep, h a (List.mem_cons_self a l)]
    rw [ha]
    exact ih _ (fun j hj => h j (List.mem_cons_of_mem a hj))

theorem dpEntry_succ (rd : ℚ) (sts : List (FuelStation × ℚ)) (m : ℕ) :
    dpEntry rd sts (m + 1) = relaxFrom rd sts (dpv rd sts) (m + 1) := by
  have hlen : (dpTable rd sts m).length = m + 1 := dpTable_length rd sts m
  have hget : (dpTable rd sts (m + 1)).get? (m + 1) =
      some (relaxFrom rd sts
        (fun j => (((dpTable rd sts m).get? j).map Prod.fst).getD ⊤)
        (m + 1)) := by
    rw [dpTable, ← hlen]
    exact List.get?_concat_length _ _
  rw [dpEntry, hget, Option.getD_some, relaxFrom, relaxFrom]
  apply foldl_relaxStep_congr
  intro j hj
  have hjm : j ≤ m := by
    have := List.mem_range.mp hj
    omega
  rw [dpTable_get?_of_le rd sts m j hjm]
  rfl

theorem dpv_succ (rd : ℚ) (sts : List (FuelStation × ℚ)) (m : ℕ) :
    dpv rd sts (m + 1) = (relaxFrom rd sts (dpv rd sts) (m + 1)).1 := by
  rw [dpv, dpEntry_succ]

theorem par_succ (rd : ℚ) (sts : List (FuelStation × ℚ)) (m : ℕ) :
    par rd sts (m + 1) = (relaxFrom rd sts (dpv rd sts) (m + 1)).2 := by
  rw [par, dpEntry_succ]

theorem dpv_pos (rd : ℚ) (sts : List (FuelStation × ℚ)) (i : ℕ) (h : i ≠ 0) :
    dpv rd sts i = (relaxFrom rd sts (dpv rd sts) i).1 := by
  obtain ⟨m, rfl⟩ : ∃ m, i = m + 1 := ⟨i - 1, by omega⟩
  exact dpv_succ rd sts m

theorem par_pos (rd : ℚ) (sts : List (FuelStation × ℚ)) (i : ℕ) (h : i ≠ 0) :
    par rd sts i = (relaxFrom rd sts (dpv rd sts) i).2 := by
  obtain ⟨m, rfl⟩ : ∃ m, i = m + 1 := ⟨i - 1, by omega⟩
  exact par_succ rd sts m

/-! ### Fold characterization of the relaxation loop -/

theorem relaxStep_fst_le (rd : ℚ) (sts : List (FuelStation × ℚ))
    (f : ℕ → WithTop ℚ) (i : ℕ) (acc : WithTop ℚ × Int) (j : ℕ) :
    (relaxStep rd sts f i acc j).1 ≤ acc.1 := by
  unfold relaxStep
  split_ifs with h1 h2
  · exact le_refl _
  · exact le_of_lt h2
  · exact le_refl _

theorem foldl_relax_fst_le (rd : ℚ) (sts : List (FuelStation × ℚ))
    (f : ℕ → WithTop ℚ) (i : ℕ) :
    ∀ (l : List ℕ) (acc : WithTop ℚ × Int),
      (l.foldl (relaxStep rd sts f i) acc).1 ≤ acc.1 := by
  intro l
  induction l with
  | nil => intro acc; exact le_refl _
  | cons a l ih =>
    intro acc
    simp only [List.foldl_cons]
    exact le_trans (ih _) (relaxStep_fst_le rd sts f i acc a)

theorem foldl_relax_le_of_mem (rd : ℚ) (sts : List (FuelStation × ℚ))
    (f : ℕ → WithTop ℚ) (i : ℕ) :
    ∀ (l : List ℕ) (acc : WithTop ℚ × Int) (j : ℕ), j ∈ l →
      posOf rd sts i - posOf rd sts j ≤ VEHICLE_RANGE_MILES →
      (l.foldl (relaxStep rd sts f i) acc).1 ≤ f j + (costOf sts i : WithTop ℚ) := by
  intro l
  induction l with
  | nil => intro acc j hj; exact absurd hj (List.not_mem_nil j)
  | cons a l ih =>
    intro acc j hj hgap
    simp only [List.foldl_cons]
    rcases List.mem_cons.mp hj with h | h
    · subst h
      refine le_trans (foldl_relax_fst_le rd sts f i l _) ?_
      unfold relaxStep
      split_ifs with h1 h2
      · exact absurd hgap (by exact not_le.mpr h1)
      · exact le_refl _
      · exact not_lt.mp h2
    · exact ih _ j h hgap

theorem relax_le (rd : ℚ) (sts : List (FuelStation × ℚ))
    (f : ℕ → WithTop ℚ) (i j : ℕ) (hj : j < i)
    (hgap : posOf rd sts i - posOf rd sts j ≤ VEHICLE_RANGE_MILES) :
    (relaxFrom rd sts f i).1 ≤ f j + (costOf sts i : WithTop ℚ) :=
  foldl_relax_le_of_mem rd sts f i _ _ j (List.mem_range.mpr hj) hgap

/-- The invariant maintained by the relaxation fold: the accumulator is still
the initial `(inf, -1)`, or records a finite best value together with an
in-range predecessor index realizing it. -/
def RelaxInv (rd : ℚ) (sts : List (FuelStation × ℚ)) (f : ℕ → WithTop ℚ)
    (i : ℕ) (acc : WithTop ℚ × Int) : Prop :=
  acc = (⊤, -1) ∨
    ∃ j : ℕ, j < i ∧
      posOf rd sts i - posOf rd sts j ≤ VEHICLE_RANGE_MILES ∧
      acc.2 = (j : Int) ∧ acc.1 = f j + (costOf sts i : WithTop ℚ) ∧ acc.1 ≠ ⊤

theorem foldl_relax_inv (rd : ℚ) (sts : List (FuelStation × ℚ))
    (f : ℕ → WithTop ℚ) (i : ℕ) :
    ∀ (l : List ℕ) (acc : WithTop ℚ × Int), (∀ a ∈ l, a < i) →
      RelaxInv rd sts f i acc →
      RelaxInv rd sts f i (l.foldl (relaxStep rd sts f i) acc) := by
  intro l
  induction l with
  | nil => intro acc _ h; exact h
  | cons a l ih =>
    intro acc hlt h
    simp only [List.foldl_cons]
    refine ih _ (fun b hb => hlt b (List.mem_cons_of_mem a hb)) ?_
    unfold relaxStep
    split_ifs with h1 h2
    · exact h
    · right
      refine ⟨a, hlt a (List.mem_cons_self a l), not_lt.mp h1, rfl, rfl, ?_⟩
      exact ne_top_of_lt (lt_of_lt_of_le h2 le_top)
    · exact h

theorem relaxFrom_inv (rd : ℚ) (sts : List (FuelStation × ℚ))
    (f : ℕ → WithTop ℚ) (i : ℕ) :
    RelaxInv rd sts f i (relaxFrom rd sts f i) := by
  unfold relaxFrom
  exact foldl_relax_inv rd sts f i _ _ (fun a ha => List.mem_range.mp ha)
    (Or.inl rfl)

/-- For `i ≥ 1` with finite `dp[i]`: the recorded parent is an in-range
predecessor realizing `dp[i] = dp[parent] + refuel_cost(i)`. -/
theorem dpv_spec (rd : ℚ) (sts : List (FuelStation × ℚ)) (m : ℕ)
    (h : dpv rd sts (m + 1) ≠ ⊤) :
    ∃ j : ℕ, j < m + 1 ∧ par rd sts (m + 1) = (j : Int) ∧
      posOf rd sts (m + 1) - posOf rd sts j ≤ VEHICLE_RANGE_MILES ∧
      dpv rd sts (m + 1) = dpv rd sts j + (costOf sts (m + 1) : WithTop ℚ) := by
  have hinv := relaxFrom_inv rd sts (dpv rd sts) (m + 1)
  rw [RelaxInv] at hinv
  rcases hinv with h0 | ⟨j, hj, hgap, hsnd, hfst, _⟩
  · exfalso
    apply h
    rw [dpv_succ, h0]
  · exact ⟨j, hj, by rw [par_succ]; exact hsnd, hgap, by rw [dpv_succ]; exact hfst⟩

/-- `dp[i] ≤ dp[j] + refuel_cost(i)` for every in-range predecessor `j`. -/
theorem dpv_le (rd : ℚ) (sts : List (FuelStation × ℚ)) (m j : ℕ)
    (hj : j < m + 1)
    (hgap : posOf rd sts (m + 1) - posOf rd sts j ≤ VEHICLE_RANGE_MILES) :
    dpv rd sts (m + 1) ≤ dpv rd sts j + (costOf sts (m + 1) : WithTop ℚ) := by
  rw [dpv_succ]
  exact relax_le rd sts (dpv rd sts) (m + 1) j hj hgap

/-! ### Paths through the DP graph -/

/-- Cost of a sequence of chosen station indices under the full-tank cost
model: each chosen station contributes `(range / efficiency) × unit price`. -/
def seqCost (sts : List (FuelStation × ℚ)) (idxs : List ℕ) : ℚ :=
  (idxs.map (fun k => (VEHICLE_RANGE_MILES / FUEL_EFFICIENCY_MPG) *
    stPrice sts k)).sum

/-- The position sequence of a chosen station-index sequence: the start
(position 0), the chosen chainages, and the destination. -/
def seqPositions (route_distance : ℚ) (sts : List (FuelStation × ℚ))
    (idxs : List ℕ) : List ℚ :=
  0 :: idxs.map (stPos sts) ++ [route_distance]

/-- A feasible alternative stop sequence: strictly increasing indices into the
station list, with every consecutive gap (from position 0, between chosen
chainages, and to the destination) at most the vehicle range. -/
def FeasibleSeq (route_distance : ℚ) (sts : List (FuelStation × ℚ))
    (idxs : List ℕ) : Prop :=
  List.Chain' (fun a b => a < b) idxs ∧ (∀ k ∈ idxs, k < sts.length) ∧
  List.Chain' (fun a b => b - a ≤ VEHICLE_RANGE_MILES)
    (seqPositions route_distance sts idxs)

instance (route_distance : ℚ) (sts : List (FuelStation × ℚ)) (idxs : List ℕ) :
    Decidable (FeasibleSeq route_distance sts idxs) := by
  unfold FeasibleSeq
  infer_instance

/-- Paths through the DP graph from the virtual start, tracking accumulated
cost: edges go from a node to any later node within vehicle range, paying the
arrival cost of the target node. -/
inductive DpPath (rd : ℚ) (sts : List (FuelStation × ℚ)) : ℕ → ℚ → Prop where
  | start : DpPath rd sts 0 0
  | step {j : ℕ} {c : ℚ} {i : ℕ} : DpPath rd sts j c → j < i →
      posOf rd sts i - posOf rd sts j ≤ VEHICLE_RANGE_MILES →
      DpPath rd sts i (c + costOf sts i)

/-- The DP value lower-bounds the cost of every path to a node. -/
theorem dpv_le_path (rd : ℚ) (sts : List (FuelStation × ℚ)) {i : ℕ} {c : ℚ}
    (h : DpPath rd sts i c) : dpv rd sts i ≤ (c : WithTop ℚ) := by
  induction h with
  | start => simp [dpv_zero]
  | @step j c i hpath hlt hgap ih =>
    obtain ⟨m, rfl⟩ : ∃ m, i = m + 1 := ⟨i - 1, by omega⟩
    calc dpv rd sts (m + 1)
        ≤ dpv rd sts j + (costOf sts (m + 1) : WithTop ℚ) :=
          dpv_le rd sts m j hlt hgap
      _ ≤ (c : WithTop ℚ) + (costOf sts (m + 1) : WithTop ℚ) :=
          add_le_add_right ih _
      _ = ((c + costOf sts (m + 1) : ℚ) : WithTop ℚ) := by
          rw [WithTop.coe_add]

/-- The edge relation recorded by the backtracking pass: `b`'s stored parent
is `a`, an in-range strictly earlier node realizing `dp[b]`. -/
def StepRel (rd : ℚ) (sts : List (FuelStation × ℚ)) (a b : ℕ) : Prop :=
  par rd sts b = (a : Int) ∧ a < b ∧ b ≤ sts.length + 1 ∧
  posOf rd sts b - posOf rd sts a ≤ VEHICLE_RANGE_MILES ∧
  dpv rd sts b = dpv rd sts a + (costOf sts b : WithTop ℚ)

theorem backtrack_succ (endIdx : ℕ) (parent : ℕ → Int) (f cur : ℕ) :
    backtrack endIdx parent (f + 1) cur =
      if parent cur = -1 then []
      else
        backtrack endIdx parent f (parent cur).toNat ++
          (if (parent cur).toNat ≠ 0 ∧ (parent cur).toNat ≠ endIdx then
            [(parent cur).toNat - 1] else []) := rfl

theorem backtrack_par_zero (rd : ℚ) (sts : List (FuelStation × ℚ))
    (endIdx : ℕ) : ∀ fuel, backtrack endIdx (par rd sts) fuel 0 = [] := by
  intro fuel
  cases fuel with
  | zero => rfl
  | succ f => simp [backtrack, par_zero]

/-- Correctness of the backtracking pass: from any node with a finite DP
value, it returns the chain of stored parents as station indices, linked by
`StepRel` edges from the virtual start, whose full-tank cost plus the arrival
cost of the node equals the DP value. -/
theorem backtrack_spec (rd : ℚ) (sts : List (FuelStation × ℚ)) :
    ∀ (fuel cur : ℕ) (c : ℚ), cur < fuel → 1 ≤ cur → cur ≤ sts.length + 1 →
      dpv rd sts cur = (c : WithTop ℚ) →
      (∀ k ∈ backtrack (sts.length + 1) (par rd sts) fuel cur,
        k < sts.length) ∧
      List.Chain (StepRel rd sts) 0
        ((backtrack (sts.length + 1) (par rd sts) fuel cur).map (· + 1) ++
          [cur]) ∧
      c = seqCost sts (backtrack (sts.length + 1) (par rd sts) fuel cur) +
        costOf sts cur := by
  intro fuel
  induction fuel with
  | zero => intro cur c hcf; omega
  | succ f ih =>
    intro cur c hcf hcur1 hcurN hdpv
    obtain ⟨m, rfl⟩ : ∃ m, cur = m + 1 := ⟨cur - 1, by omega⟩
    have hne : dpv rd sts (m + 1) ≠ ⊤ := by
      rw [hdpv]; exact WithTop.coe_ne_top
    obtain ⟨j, hj, hpar, hgap, heq⟩ := dpv_spec rd sts m hne
    have hdj : dpv rd sts j ≠ ⊤ := by
      intro htop
      rw [htop] at heq
      rw [hdpv] at heq
      simp at heq
    obtain ⟨cj, hcj⟩ := WithTop.ne_top_iff_exists.mp hdj
    have hc : c = cj + costOf sts (m + 1) := by
      have : (c : WithTop ℚ) = ((cj + costOf sts (m + 1) : ℚ) : WithTop ℚ) := by
        rw [← hdpv, heq, ← hcj, WithTop.coe_add]
      exact_mod_cast this
    have hstep :
        backtrack (sts.length + 1) (par rd sts) (f + 1) (m + 1) =
          backtrack (sts.length + 1) (par rd sts) f j ++
            (if j ≠ 0 ∧ j ≠ sts.length + 1 then [j - 1] else []) := by
      rw [backtrack_succ, hpar]
      have hne1 : ¬ ((j : Int) = -1) := by omega
      have htn : ((j : Int)).toNat = j := by omega
      rw [if_neg hne1, htn]
    by_cases hj0 : j = 0
    · subst hj0
      have hcj0 : cj = 0 := by
        have h0 : dpv rd sts 0 = ((0 : ℚ) : WithTop ℚ) := by
          rw [dpv_zero]; rfl
        rw [h0] at hcj
        exact_mod_cast hcj
      have hbt : backtrack (sts.length + 1) (par rd sts) (f + 1) (m + 1) =
          ([] : List ℕ) := by
        rw [hstep, backtrack_par_zero]
        simp
      rw [hbt]
      refine ⟨by intro k hk; simp at hk, ?_, ?_⟩
      · simp only [List.map_nil, List.nil_append]
        rw [List.chain_cons]
        refine ⟨⟨hpar, by omega, hcurN, hgap, ?_⟩, List.Chain.nil⟩
        rw [heq, ← hcj]
      · rw [hc, hcj0, seqCost]
        simp
    · have hj1 : 1 ≤ j := by omega
      have hjN : j ≤ sts.length := by omega
      have hjf : j < f := by omega
      obtain ⟨ihmem, ihchain, ihcost⟩ :=
        ih j cj hjf hj1 (by omega) hcj.symm
      have hcond : (if j ≠ 0 ∧ j ≠ sts.length + 1 then [j - 1] else []) =
          [j - 1] := by
        have : j ≠ 0 ∧ j ≠ sts.length + 1 := ⟨hj0, by omega⟩
        simp [this]
      rw [hstep, hcond]
      refine ⟨?_, ?_, ?_⟩
      · intro k hk
        rcases List.mem_append.mp hk with h | h
        · exact ihmem k h
        · have : k = j - 1 := by simpa using h
          omega
      · have hmap : (backtrack (sts.length + 1) (par rd sts) f j ++
            [j - 1]).map (· + 1) =
            (backtrack (sts.length + 1) (par rd sts) f j).map (· + 1) ++
              [j] := by
          rw [List.map_append]
          simp only [List.map_cons, List.map_nil]
          congr 2
          omega
        rw [hmap, List.append_assoc]
        have : ([j] ++ [m + 1] : List ℕ) = j :: [m + 1] := rfl
        rw [this]
        rw [List.chain_split]
        constructor
        · exact ihchain
        · rw [List.chain_cons]
          exact ⟨⟨hpar, hj, hcurN, hgap, by rw [heq, ← hcj]⟩, List.Chain.nil⟩
      · rw [hc, ihcost, seqCost, seqCost, List.map_append, List.sum_append]
        simp only [List.map_cons, List.map_nil, List.sum_cons, List.sum_nil]
        have hcostj : costOf sts j =
            (VEHICLE_RANGE_MILES / FUEL_EFFICIENCY_MPG) *
              stPrice sts (j - 1) := by
          rw [costOf]
          have : ¬ (j = sts.length + 1) := by omega
          simp [this]
        rw [hcostj]
        ring

/-- What the DP planner's selected index path satisfies whenever it returns
one: valid station indices, a `StepRel`-chain from the virtual start through
the corresponding DP nodes to the virtual end, and a total full-tank cost
equal to `dp[END]`. -/
theorem dp_path_spec (rd : ℚ) (sts : List (FuelStation × ℚ)) (idxs : List ℕ)
    (h : dp_path_indices rd sts = some idxs) :
    (∀ k ∈ idxs, k < sts.length) ∧
    List.Chain (StepRel rd sts) 0 (idxs.map (· + 1) ++ [sts.length + 1]) ∧
    dpv rd sts (sts.length + 1) = ((seqCost sts idxs : ℚ) : WithTop ℚ) := by
  rw [dp_path_indices] at h
  by_cases htop : dpv rd sts (sts.length + 1) = ⊤
  · simp [htop] at h
  · simp only [htop, if_false, Option.some.injEq] at h
    obtain ⟨c, hc⟩ := WithTop.ne_top_iff_exists.mp htop
    obtain ⟨hmem, hchain, hcost⟩ :=
      backtrack_spec rd sts (sts.length + 2) (sts.length + 1) c
        (by omega) (by omega) (by omega) hc.symm
    rw [h] at hmem hchain hcost
    refine ⟨hmem, hchain, ?_⟩
    rw [← hc]
    have : costOf sts (sts.length + 1) = 0 := by simp [costOf]
    rw [this, add_zero] at hcost
    rw [hcost]

/-! ### Feasible stop sequences give DP paths -/

theorem chain_and {α : Type} (R S : α → α → Prop) :
    ∀ (l : List α) (a : α), List.Chain R a l → List.Chain S a l →
      List.Chain (fun x y => R x y ∧ S x y) a l := by
  intro l
  induction l with
  | nil => intro a _ _; exact List.Chain.nil
  | cons b l ih =>
    intro a hR hS
    rw [List.chain_cons] at hR hS ⊢
    exact ⟨⟨hR.1, hS.1⟩, ih b hR.2 hS.2⟩

theorem dpPath_extend (rd : ℚ) (sts : List (FuelStation × ℚ)) :
    ∀ (ns : List ℕ) (j : ℕ) (c : ℚ), DpPath rd sts j c →
      List.Chain (fun a b => a < b ∧
        posOf rd sts b - posOf rd sts a ≤ VEHICLE_RANGE_MILES) j ns →
      DpPath rd sts (ns.getLastD j) (c + (ns.map (costOf sts)).sum) := by
  intro ns
  induction ns with
  | nil =>
    intro j c hp _
    simpa using hp
  | cons b tl ih =>
    intro j c hp hchain
    rw [List.chain_cons] at hchain
    obtain ⟨⟨hlt, hgap⟩, hchain'⟩ := hchain
    have hb : DpPath rd sts b (c + costOf sts b) := DpPath.step hp hlt hgap
    have := ih b (c + costOf sts b) hb hchain'
    rw [List.getLastD_cons]
    simp only [List.map_cons, List.sum_cons]
    rw [← add_assoc]
    exact this

/-- The node list visited by a chosen station-index sequence, with the
virtual end appended. -/
def nodeList (sts : List (FuelStation × ℚ)) (idxs : List ℕ) : List ℕ :=
  idxs.map (· + 1) ++ [sts.length + 1]

theorem chain_lt_nodes (sts : List (FuelStation × ℚ)) :
    ∀ (l : List ℕ) (a : ℕ), (∀ k ∈ l, k < sts.length) →
      List.Chain' (fun x y => x < y) l →
      (∀ k ∈ l.head?, a < k + 1) → a ≤ sts.length →
      List.Chain (fun x y => x < y) a (nodeList sts l) := by
  intro l
  induction l with
  | nil =>
    intro a _ _ _ ha
    rw [nodeList, List.map_nil, List.nil_append, List.chain_cons]
    exact ⟨by omega, List.Chain.nil⟩
  | cons k tl ih =>
    intro a hmem hchain hhead ha
    rw [nodeList, List.map_cons, List.cons_append, List.chain_cons]
    rw [List.chain'_cons'] at hchain
    constructor
    · exact hhead k rfl
    · have hk : k < sts.length := hmem k (List.mem_cons_self k tl)
      exact ih (k + 1) (fun b hb => hmem b (List.mem_cons_of_mem k hb))
        hchain.2 (fun b hb => by have := hchain.1 b hb; omega) (by omega)

theorem seqPositions_eq_map (rd : ℚ) (sts : List (FuelStation × ℚ))
    (idxs : List ℕ) (hmem : ∀ k ∈ idxs, k < sts.length) :
    seqPositions rd sts idxs =
      (0 :: nodeList sts idxs).map (posOf rd sts) := by
  rw [seqPositions, nodeList, List.map_cons, List.map_append, List.map_map]
  have h0 : posOf rd sts 0 = (0 : ℚ) := by simp [posOf]
  have hN : posOf rd sts (sts.length + 1) = rd := by simp [posOf]
  have hmap : List.map (posOf rd sts ∘ fun x => x + 1) idxs =
      List.map (stPos sts) idxs := by
    apply List.map_congr_left
    intro k hk
    have hkN : k < sts.length := hmem k hk
    show posOf rd sts (k + 1) = stPos sts k
    have h1 : ¬ (k + 1 = 0) := by omega
    have h2 : ¬ (k + 1 = sts.length + 1) := by omega
    rw [posOf, if_neg h1, if_neg h2]
    congr 1
  simp only [List.map_cons, List.map_nil, h0, hN, hmap, List.cons_append]

/-- Every feasible stop sequence induces a DP path from the virtual start to
the virtual end whose cost is the sequence's full-tank cost. -/
theorem feasible_dpPath (rd : ℚ) (sts : List (FuelStation × ℚ))
    (idxs : List ℕ) (hf : FeasibleSeq rd sts idxs) :
    DpPath rd sts (sts.length + 1) (seqCost sts idxs) := by
  obtain ⟨hincr, hmem, hgaps⟩ := hf
  have hgapchain : List.Chain
      (fun a b => posOf rd sts b - posOf rd sts a ≤ VEHICLE_RANGE_MILES) 0
      (nodeList sts idxs) := by
    rw [seqPositions_eq_map rd sts idxs hmem, List.chain'_map] at hgaps
    exact hgaps
  have hltchain : List.Chain (fun x y => x < y) 0 (nodeList sts idxs) :=
    chain_lt_nodes sts idxs 0 hmem hincr (fun k _ => by omega) (by omega)
  have hchain := chain_and _ _ (nodeList sts idxs) 0 hltchain hgapchain
  have hext := dpPath_extend rd sts (nodeList sts idxs) 0 0 DpPath.start hchain
  have hlast : (nodeList sts idxs).getLastD 0 = sts.length + 1 := by
    rw [nodeList]
    exact List.getLastD_concat _ _ _
  have hsum : ((nodeList sts idxs).map (costOf sts)).sum = seqCost sts idxs := by
    rw [nodeList, List.map_append, List.sum_append, List.map_map]
    have hend : costOf sts (sts.length + 1) = 0 := by simp [costOf]
    simp only [List.map_cons, List.map_nil, List.sum_cons, List.sum_nil, hend]
    rw [seqCost]
    have : idxs.map (costOf sts ∘ (· + 1)) =
        idxs.map (fun k => (VEHICLE_RANGE_MILES / FUEL_EFFICIENCY_MPG) *
          stPrice sts k) := by
      apply List.map_congr_left
      intro k hk
      have hkN : k < sts.length := hmem k hk
      show costOf sts (k + 1) = _
      rw [costOf]
      have h2 : ¬ (k + 1 = sts.length + 1) := by omega
      simp only [h2, if_false]
      congr 1
    rw [this]
    ring
  rw [hlast, hsum, zero_add] at hext
  exact hext

/-- `dp[END]` lower-bounds the full-tank cost of every feasible stop
sequence. -/
theorem dpv_end_le_feasible (rd : ℚ) (sts : List (FuelStation × ℚ))
    (alt : List ℕ) (halt : FeasibleSeq rd sts alt) :
    dpv rd sts (sts.length + 1) ≤ ((seqCost sts alt : ℚ) : WithTop ℚ) :=
  dpv_le_path rd sts (feasible_dpPath rd sts alt halt)

/-! ### Node position / cost at station nodes -/

theorem posOf_node (rd : ℚ) (sts : List (FuelStation × ℚ)) (k : ℕ)
    (hk : k < sts.length) : posOf rd sts (k + 1) = stPos sts k := by
  have h1 : ¬ (k + 1 = 0) := by omega
  have h2 : ¬ (k + 1 = sts.length + 1) := by omega
  rw [posOf, if_neg h1, if_neg h2]
  congr 1

theorem costOf_node (sts : List (FuelStation × ℚ)) (k : ℕ)
    (hk : k < sts.length) :
    costOf sts (k + 1) =
      (VEHICLE_RANGE_MILES / FUEL_EFFICIENCY_MPG) * stPrice sts k := by
  have h2 : ¬ (k + 1 = sts.length + 1) := by omega
  rw [costOf, if_neg h2]
  congr 1

/-- Whenever the DP selects an index path, the planner's return value is its
materialization. -/
theorem find_eq_buildStops (rd : ℚ) (sts : List (FuelStation × ℚ))
    (idxs : List ℕ) (h : dp_path_indices rd sts = some idxs) :
    find_optimal_stops_dp rd sts = buildStops sts idxs := by
  by_cases hsts : sts = []
  · subst hsts
    obtain ⟨hmem, _, _⟩ := dp_path_spec rd [] idxs h
    have hnil : idxs = [] := by
      cases idxs with
      | nil => rfl
      | cons a l => exact absurd (hmem a (List.mem_cons_self a l)) (by simp)
    rw [hnil, find_optimal_stops_dp, buildStops]
    simp
  · rw [find_optimal_stops_dp, if_neg hsts, h]

/-! ### Claim C1: optimality of the DP planner -/

/-- **C1.** For every finite list of on-route stations sorted by ascending
chainage with chainages in `[0, route_distance]`, the stop sequence returned
by the DP planner is cost-minimal under the full-tank cost model: the DP
selects an index sequence, the planner's return value materializes it, and no
feasible alternative stop sequence (every consecutive gap — from position 0,
between chosen chainages, and to `route_distance` — at most the vehicle range
of 500 miles) has a strictly lower total cost, where each chosen station
contributes `(range / efficiency) × unit price`. -/
theorem dp_planner_optimal (rd : ℚ) (sts : List (FuelStation × ℚ))
    (hsort : List.Chain' (fun p q => p.2 ≤ q.2) sts)
    (hbnd : ∀ p ∈ sts, 0 ≤ p.2 ∧ p.2 ≤ rd)
    (alt : List ℕ) (halt : FeasibleSeq rd sts alt) :
    ∃ idxs, dp_path_indices rd sts = some idxs ∧
      find_optimal_stops_dp rd sts = buildStops sts idxs ∧
      seqCost sts idxs ≤ seqCost sts alt := by
  have hle := dpv_end_le_feasible rd sts alt halt
  have hne : dpv rd sts (sts.length + 1) ≠ ⊤ := by
    intro htop
    rw [htop, top_le_iff] at hle
    exact WithTop.coe_ne_top hle
  have hsome : dp_path_indices rd sts =
      some (backtrack (sts.length + 1) (par rd sts) (sts.length + 2)
        (sts.length + 1)) := by
    rw [dp_path_indices]
    simp only [if_neg hne]
  obtain ⟨hmem, hchain, hcost⟩ := dp_path_spec rd sts _ hsome
  refine ⟨_, hsome, find_eq_buildStops rd sts _ hsome, ?_⟩
  rw [hcost] at hle
  exact_mod_cast hle

def stationA : FuelStation := ⟨"A", "1 Main St", "Alpha", "TX", 31, -100, 3⟩

def stationB : FuelStation :=
  ⟨"B", "2 Main St", "Beta", "TX", 32, -101, 28/10⟩

def stationC : FuelStation :=
  ⟨"C", "3 Main St", "Gamma", "TX", 33, -102, 29/10⟩

/-- The spec's concrete scenario: stations at chainages 100, 450, 900 with
prices 3.00, 2.80, 2.90. -/
def exampleStations : List (FuelStation × ℚ) :=
  [(stationA, 100), (stationB, 450), (stationC, 900)]

theorem exampleStations_sorted :
    List.Chain' (fun (p q : FuelStation × ℚ) => p.2 ≤ q.2) exampleStations := by
  norm_num [exampleStations, stationA, stationB, stationC,
    List.chain'_cons, List.chain'_singleton]

theorem exampleStations_bounded :
    ∀ p ∈ exampleStations, 0 ≤ p.2 ∧ p.2 ≤ (1200 : ℚ) := by
  intro p hp
  rw [exampleStations] at hp
  rcases List.mem_cons.mp hp with h | hp <;>
    [skip; rcases List.mem_cons.mp hp with h | hp] <;>
    [skip; skip; rcases List.mem_cons.mp hp with h | hp] <;>
    first
      | (subst h; norm_num)
      | exact absurd hp (List.not_mem_nil p)

theorem exampleAlt_feasible : FeasibleSeq 1200 exampleStations [0, 1, 2] := by
  refine ⟨?_, by decide, ?_⟩
  · norm_num [List.chain'_cons, List.chain'_singleton]
  · have e0 : stPos exampleStations 0 = 100 := rfl
    have e1 : stPos exampleStations 1 = 450 := rfl
    have e2 : stPos exampleStations 2 = 900 := rfl
    norm_num [seqPositions, e0, e1, e2, List.chain'_cons,
      List.chain'_singleton, VEHICLE_RANGE_MILES]

/-- Witness for C1 at the spec's concrete scenario, with the feasible
alternative that stops at all three stations. -/
theorem dp_planner_optimal_witness :
    List.Chain' (fun (p q : FuelStation × ℚ) => p.2 ≤ q.2) exampleStations ∧
    (∀ p ∈ exampleStations, 0 ≤ p.2 ∧ p.2 ≤ (1200 : ℚ)) ∧
    FeasibleSeq 1200 exampleStations [0, 1, 2] ∧
    (∃ idxs, dp_path_indices 1200 exampleStations = some idxs ∧
      find_optimal_stops_dp 1200 exampleStations =
        buildStops exampleStations idxs ∧
      seqCost exampleStations idxs ≤ seqCost exampleStations [0, 1, 2]) :=
  ⟨exampleStations_sorted, exampleStations_bounded, exampleAlt_feasible,
    dp_planner_optimal 1200 exampleStations exampleStations_sorted
      exampleStations_bounded [0, 1, 2] exampleAlt_feasible⟩

/-! ### Claim C2: range respect of the DP path -/

/-- **C2.** Whenever the DP planner returns a stop list itself (`dp[END]` is
reachable, the greedy fallback is not invoked) and the input stations are
sorted by ascending chainage, every consecutive gap in the position sequence
`{0} ∪ {chainages of the returned stops} ∪ {route_distance}` is at most the
vehicle range of 500 miles. -/
theorem dp_path_range_respect (rd : ℚ) (sts : List (FuelStation × ℚ))
    (hsort : List.Chain' (fun (p q : FuelStation × ℚ) => p.2 ≤ q.2) sts)
    (idxs : List ℕ) (hdp : dp_path_indices rd sts = some idxs) :
    find_optimal_stops_dp rd sts = buildStops sts idxs ∧
    List.Chain' (fun a b => b - a ≤ VEHICLE_RANGE_MILES)
      (seqPositions rd sts idxs) := by
  obtain ⟨hmem, hchain, _⟩ := dp_path_spec rd sts idxs hdp
  refine ⟨find_eq_buildStops rd sts idxs hdp, ?_⟩
  have hgap : List.Chain
      (fun a b => posOf rd sts b - posOf rd sts a ≤ VEHICLE_RANGE_MILES) 0
      (idxs.map (· + 1) ++ [sts.length + 1]) :=
    hchain.imp (fun a b h => h.2.2.2.1)
  rw [seqPositions_eq_map rd sts idxs hmem, List.chain'_map]
  exact hgap

/-! ### Finiteness along the backtracked chain, chainage monotonicity -/

theorem steprel_chain_finite (rd : ℚ) (sts : List (FuelStation × ℚ)) (e : ℕ)
    (he : dpv rd sts e ≠ ⊤) :
    ∀ (X : List ℕ) (a : ℕ), List.Chain (StepRel rd sts) a (X ++ [e]) →
      ∀ b ∈ a :: X, dpv rd sts b ≠ ⊤ := by
  intro X
  induction X with
  | nil =>
    intro a hchain b hb
    rw [List.nil_append, List.chain_cons] at hchain
    obtain ⟨⟨_, _, _, _, heq⟩, _⟩ := hchain
    have hb' : b = a := by simpa using hb
    subst hb'
    intro htop
    rw [htop, WithTop.top_add] at heq
    exact he heq
  | cons w tl ih =>
    intro a hchain b hb
    rw [List.cons_append, List.chain_cons] at hchain
    obtain ⟨⟨_, _, _, _, heq⟩, hchain'⟩ := hchain
    rcases List.mem_cons.mp hb with hba | hbw
    · subst hba
      have hw : dpv rd sts w ≠ ⊤ := ih w hchain' w (List.mem_cons_self w tl)
      intro htop
      rw [htop, WithTop.top_add] at heq
      exact hw heq
    · exact ih w hchain' b hbw

theorem stGet_eq_get (sts : List (FuelStation × ℚ)) (k : ℕ)
    (h : k < sts.length) : stGet sts k = sts.get ⟨k, h⟩ := by
  rw [stGet, List.getD_eq_get?, List.get?_eq_get h]
  rfl

theorem stGet_mem (sts : List (FuelStation × ℚ)) (k : ℕ)
    (h : k < sts.length) : stGet sts k ∈ sts := by
  rw [stGet_eq_get sts k h]
  exact List.get_mem sts k h

theorem stPos_le_stPos (sts : List (FuelStation × ℚ))
    (hsort : List.Chain' (fun (p q : FuelStation × ℚ) => p.2 ≤ q.2) sts) :
    ∀ (d i : ℕ), i + d < sts.length → stPos sts i ≤ stPos sts (i + d) := by
  intro d
  induction d with
  | zero => intro i _; exact le_refl _
  | succ d ih =>
    intro i h
    refine le_trans (ih i (by omega)) ?_
    show stPos sts (i + d) ≤ stPos sts (i + d + 1)
    rw [List.chain'_iff_get] at hsort
    have hs := hsort (i + d) (by omega)
    have e1 : stPos sts (i + d) = (sts.get ⟨i + d, by omega⟩).2 := by
      rw [stPos, stGet_eq_get sts (i + d) (by omega)]
    have e2 : stPos sts (i + d + 1) = (sts.get ⟨i + d + 1, by omega⟩).2 := by
      rw [stPos, stGet_eq_get sts (i + d + 1) (by omega)]
    rw [e1, e2]
    exact hs

theorem round_le_round_of_le {x y : ℚ} (h : x ≤ y) : round x ≤ round y := by
  rw [round_eq, round_eq]
  exact Int.floor_le_floor (by linarith)

theorem roundTo_mono (n : ℕ) {x y : ℚ} (h : x ≤ y) :
    roundTo n x ≤ roundTo n y := by
  rw [roundTo, roundTo]
  have hpow : (0 : ℚ) < 10 ^ n := by positivity
  have hr : ((round (x * 10 ^ n) : ℤ) : ℚ) ≤ ((round (y * 10 ^ n) : ℤ) : ℚ) := by
    exact_mod_cast round_le_round_of_le
      (mul_le_mul_of_nonneg_right h (le_of_lt hpow))
  rw [div_eq_mul_inv, div_eq_mul_inv]
  exact mul_le_mul_of_nonneg_right hr (le_of_lt (inv_pos.mpr hpow))

/-- A backtracked edge between two station nodes strictly increases chainage
when the input is chainage-sorted with strictly positive prices. -/
theorem steprel_stPos_lt (rd : ℚ) (sts : List (FuelStation × ℚ))
    (hsort : List.Chain' (fun (p q : FuelStation × ℚ) => p.2 ≤ q.2) sts)
    (hpos : ∀ p ∈ sts, 0 < p.1.retail_price)
    (u v : ℕ) (h : StepRel rd sts (u + 1) (v + 1))
    (hu : u < sts.length) (hv : v < sts.length)
    (hfin : dpv rd sts (v + 1) ≠ ⊤) :
    stPos sts u < stPos sts v := by
  obtain ⟨hparv, hlt, _, hgap, heq⟩ := h
  have huv : u < v := by omega
  have hle : stPos sts u ≤ stPos sts v := by
    obtain ⟨d, rfl⟩ : ∃ d, v = u + d := ⟨v - u, by omega⟩
    exact stPos_le_stPos sts hsort d u (by omega)
  rcases lt_or_eq_of_le hle with hlt' | heqpos
  · exact hlt'
  exfalso
  have hfu : dpv rd sts (u + 1) ≠ ⊤ := by
    intro htop
    rw [htop, WithTop.top_add] at heq
    exact hfin heq
  obtain ⟨w, hwlt, hparu, hgapwu, hequ⟩ := dpv_spec rd sts u hfu
  have hdw : dpv rd sts w ≠ ⊤ := by
    intro htop
    rw [htop, WithTop.top_add] at hequ
    exact hfu hequ
  obtain ⟨cw, hcw⟩ := WithTop.ne_top_iff_exists.mp hdw
  have hposu : posOf rd sts (u + 1) = stPos sts u := posOf_node rd sts u hu
  have hposv : posOf rd sts (v + 1) = stPos sts v := posOf_node rd sts v hv
  have hgapwv : posOf rd sts (v + 1) - posOf rd sts w ≤ VEHICLE_RANGE_MILES := by
    rw [hposv, ← heqpos, ← hposu]
    exact hgapwu
  have hle2 := dpv_le rd sts v w (by omega) hgapwv
  rw [heq, hequ, ← hcw] at hle2
  have hle3 : cw + costOf sts (u + 1) + costOf sts (v + 1) ≤
      cw + costOf sts (v + 1) := by
    exact_mod_cast hle2
  have hcostu : 0 < costOf sts (u + 1) := by
    rw [costOf_node sts u hu]
    have hp : 0 < stPrice sts u := hpos (stGet sts u) (stGet_mem sts u hu)
    have h50 : (0 : ℚ) < VEHICLE_RANGE_MILES / FUEL_EFFICIENCY_MPG := by
      norm_num [VEHICLE_RANGE_MILES, FUEL_EFFICIENCY_MPG]
    exact mul_pos h50 hp
  linarith

/-! ### Concrete evaluation of the spec's scenario (route 1200, 3 stations) -/

theorem ex_len : exampleStations.length = 3 := rfl

theorem ex_pos0 : posOf 1200 exampleStations 0 = 0 := rfl

theorem ex_pos1 : posOf 1200 exampleStations 1 = 100 := rfl

theorem ex_pos2 : posOf 1200 exampleStations 2 = 450 := rfl

theorem ex_pos3 : posOf 1200 exampleStations 3 = 900 := rfl

theorem ex_pos4 : posOf 1200 exampleStations 4 = 1200 := rfl

theorem ex_cost1 : costOf exampleStations 1 = 150 := by
  show (if (1 : ℕ) = 3 + 1 then (0 : ℚ) else _) = 150
  norm_num [stPrice, stGet, exampleStations, stationA,
    VEHICLE_RANGE_MILES, FUEL_EFFICIENCY_MPG]

theorem ex_cost2 : costOf exampleStations 2 = 140 := by
  show (if (2 : ℕ) = 3 + 1 then (0 : ℚ) else _) = 140
  norm_num [stPrice, stGet, exampleStations, stationB,
    VEHICLE_RANGE_MILES, FUEL_EFFICIENCY_MPG]

theorem ex_cost3 : costOf exampleStations 3 = 145 := by
  show (if (3 : ℕ) = 3 + 1 then (0 : ℚ) else _) = 145
  norm_num [stPrice, stGet, exampleStations, stationC,
    VEHICLE_RANGE_MILES, FUEL_EFFICIENCY_MPG]

theorem ex_cost4 : costOf exampleStations 4 = 0 := by
  show (if (4 : ℕ) = 3 + 1 then (0 : ℚ) else _) = 0
  norm_num

theorem ex_dpv0 : dpv 1200 exampleStations 0 = ((0 : ℚ) : WithTop ℚ) := rfl

theorem ex_relax1 :
    relaxFrom 1200 exampleStations (dpv 1200 exampleStations) 1 =
      (((150 : ℚ) : WithTop ℚ), 0) := by
  norm_num [relaxFrom, relaxStep, List.range_succ, ex_pos0, ex_pos1, ex_cost1,
    ex_dpv0, VEHICLE_RANGE_MILES,
    WithTop.coe_lt_top, ← WithTop.coe_add, WithTop.coe_lt_coe,
    WithTop.coe_le_coe, -WithTop.coe_ofNat, lt_top_iff_ne_top, ne_eq,
    WithTop.coe_ne_top]

theorem ex_dpv1 : dpv 1200 exampleStations 1 = ((150 : ℚ) : WithTop ℚ) := by
  rw [dpv_pos 1200 exampleStations 1 (by norm_num), ex_relax1]

theorem ex_relax2 :
    relaxFrom 1200 exampleStations (dpv 1200 exampleStations) 2 =
      (((140 : ℚ) : WithTop ℚ), 0) := by
  norm_num [relaxFrom, relaxStep, List.range_succ, ex_pos0, ex_pos1, ex_pos2,
    ex_cost2, ex_dpv0, ex_dpv1, VEHICLE_RANGE_MILES,
    WithTop.coe_lt_top, ← WithTop.coe_add, WithTop.coe_lt_coe,
    WithTop.coe_le_coe, -WithTop.coe_ofNat, lt_top_iff_ne_top, ne_eq,
    WithTop.coe_ne_top]

theorem ex_dpv2 : dpv 1200 exampleStations 2 = ((140 : ℚ) : WithTop ℚ) := by
  rw [dpv_pos 1200 exampleStations 2 (by norm_num), ex_relax2]

theorem ex_par2 : par 1200 exampleStations 2 = 0 := by
  rw [par_pos 1200 exampleStations 2 (by norm_num), ex_relax2]

theorem ex_relax3 :
    relaxFrom 1200 exampleStations (dpv 1200 exampleStations) 3 =
      (((285 : ℚ) : WithTop ℚ), 2) := by
  norm_num [relaxFrom, relaxStep, List.range_succ, ex_pos0, ex_pos1, ex_pos2,
    ex_pos3, ex_cost3, ex_dpv0, ex_dpv1, ex_dpv2, VEHICLE_RANGE_MILES,
    WithTop.coe_lt_top, ← WithTop.coe_add, WithTop.coe_lt_coe,
    WithTop.coe_le_coe, -WithTop.coe_ofNat, lt_top_iff_ne_top, ne_eq,
    WithTop.coe_ne_top]

theorem ex_dpv3 : dpv 1200 exampleStations 3 = ((285 : ℚ) : WithTop ℚ) := by
  rw [dpv_pos 1200 exampleStations 3 (by norm_num), ex_relax3]

theorem ex_par3 : par 1200 exampleStations 3 = 2 := by
  rw [par_pos 1200 exampleStations 3 (by norm_num), ex_relax3]

theorem ex_relax4 :
    relaxFrom 1200 exampleStations (dpv 1200 exampleStations) 4 =
      (((285 : ℚ) : WithTop ℚ), 3) := by
  norm_num [relaxFrom, relaxStep, List.range_succ, ex_pos0, ex_pos1, ex_pos2,
    ex_pos3, ex_pos4, ex_cost4, ex_dpv0, ex_dpv1, ex_dpv2, ex_dpv3,
    VEHICLE_RANGE_MILES,
    WithTop.coe_lt_top, ← WithTop.coe_add, WithTop.coe_lt_coe,
    WithTop.coe_le_coe, -WithTop.coe_ofNat, lt_top_iff_ne_top, ne_eq,
    WithTop.coe_ne_top]

theorem ex_dpv4 : dpv 1200 exampleStations 4 = ((285 : ℚ) : WithTop ℚ) := by
  rw [dpv_pos 1200 exampleStations 4 (by norm_num), ex_relax4]

theorem ex_par4 : par 1200 exampleStations 4 = 3 := by
  rw [par_pos 1200 exampleStations 4 (by norm_num), ex_relax4]

theorem ex_path : dp_path_indices 1200 exampleStations = some [1, 2] := by
  rw [dp_path_indices]
  simp only [ex_len]
  norm_num [ex_dpv4, WithTop.coe_ne_top]
  rw [backtrack_succ, ex_par4]
  simp only [show Int.toNat 3 = 3 from rfl]
  norm_num
  rw [backtrack_succ, ex_par3]
  simp only [show Int.toNat 2 = 2 from rfl]
  norm_num
  rw [backtrack_succ, ex_par2]
  simp only [show Int.toNat 0 = 0 from rfl]
  norm_num [backtrack_par_zero]

/-- Witness for C2 at the spec's concrete scenario (`dp[END]` reachable;
the selected stations are those at chainages 450 and 900). -/
theorem dp_path_range_respect_witness :
    dp_path_indices 1200 exampleStations = some [1, 2] ∧
    (find_optimal_stops_dp 1200 exampleStations =
        buildStops exampleStations [1, 2] ∧
      List.Chain' (fun a b => b - a ≤ VEHICLE_RANGE_MILES)
        (seqPositions 1200 exampleStations [1, 2])) :=
  ⟨ex_path,
    dp_path_range_respect 1200 exampleStations exampleStations_sorted [1, 2]
      ex_path⟩

/-! ### Claim C3: the spec's concrete scenario -/

/-- **C3.** For route distance 1200, range 500, efficiency 10 and stations at
chainages 100 (price 3.00), 450 (price 2.80), 900 (price 2.90), the planner
returns exactly two stops — chainage 450 with cost 140.00 then chainage 900
with cost 145.00 — the station at chainage 100 is not chosen, the total fuel
cost is 285.00 and total gallons is 120.00. -/
theorem dp_concrete_scenario :
    (optimize_route 1200 exampleStations).fuel_stops.map
        (fun s => (s.name, s.miles_from_start, s.cost)) =
      [("B", 450, 140), ("C", 900, 145)] ∧
    (optimize_route 1200 exampleStations).total_fuel_cost = 285 ∧
    (optimize_route 1200 exampleStations).total_gallons = 120 := by
  have hne : exampleStations ≠ [] := by simp [exampleStations]
  have hfind : find_optimal_stops_dp 1200 exampleStations =
      buildStops exampleStations [1, 2] :=
    find_eq_buildStops 1200 exampleStations [1, 2] ex_path
  have hb : buildStops exampleStations [1, 2] =
      [mkFullTankStop stationB 450, mkFullTankStop stationC 900] := rfl
  rw [optimize_route, if_neg hne]
  norm_num [hfind, hb, mkFullTankStop, stationB, stationC, round2, round3,
    roundTo, round_eq, VEHICLE_RANGE_MILES, FUEL_EFFICIENCY_MPG]

/-! ### Claim C4: the result is always labelled "dynamic_programming" -/

/-- **C4.** Whenever the corridor filter yields at least one on-route
station, the returned result's `optimization_method` is
`"dynamic_programming"` — by construction this covers the inputs on which
`dp[END]` is unreachable and the greedy fallback actually produced the stop
list; the fallback is never labelled distinctly. -/
theorem method_always_dp (rd : ℚ) (sts : List (FuelStation × ℚ))
    (h : sts ≠ []) :
    (optimize_route rd sts).optimization_method = "dynamic_programming" := by
  rw [optimize_route, if_neg h]

/-- A single station at chainage 100 on a 2000-mile route: the virtual end is
unreachable (both remaining gaps exceed 500), so the greedy fallback runs. -/
def farStations : List (FuelStation × ℚ) := [(stationA, 100)]

theorem far_len : farStations.length = 1 := rfl

theorem far_pos0 : posOf 2000 farStations 0 = 0 := rfl

theorem far_pos1 : posOf 2000 farStations 1 = 100 := rfl

theorem far_pos2 : posOf 2000 farStations 2 = 2000 := rfl

theorem far_dpv0 : dpv 2000 farStations 0 = ((0 : ℚ) : WithTop ℚ) := rfl

theorem far_cost1 : costOf farStations 1 = 150 := by
  show (if (1 : ℕ) = 1 + 1 then (0 : ℚ) else _) = 150
  norm_num [stPrice, stGet, farStations, stationA,
    VEHICLE_RANGE_MILES, FUEL_EFFICIENCY_MPG]

theorem far_relax1 :
    relaxFrom 2000 farStations (dpv 2000 farStations) 1 =
      (((150 : ℚ) : WithTop ℚ), 0) := by
  norm_num [relaxFrom, relaxStep, List.range_succ, far_pos0, far_pos1,
    far_cost1, far_dpv0, VEHICLE_RANGE_MILES,
    WithTop.coe_lt_top, ← WithTop.coe_add, WithTop.coe_lt_coe,
    WithTop.coe_le_coe, -WithTop.coe_ofNat, lt_top_iff_ne_top, ne_eq,
    WithTop.coe_ne_top]

theorem far_dpv1 : dpv 2000 farStations 1 = ((150 : ℚ) : WithTop ℚ) := by
  rw [dpv_pos 2000 farStations 1 (by norm_num), far_relax1]

theorem far_relax2 :
    relaxFrom 2000 farStations (dpv 2000 farStations) 2 = (⊤, -1) := by
  norm_num [relaxFrom, relaxStep, List.range_succ, far_pos0, far_pos1,
    far_pos2, far_dpv0, far_dpv1, VEHICLE_RANGE_MILES,
    WithTop.coe_lt_top, ← WithTop.coe_add, WithTop.coe_lt_coe,
    WithTop.coe_le_coe, -WithTop.coe_ofNat, lt_top_iff_ne_top, ne_eq,
    WithTop.coe_ne_top]

theorem far_dpv2 : dpv 2000 farStations 2 = ⊤ := by
  rw [dpv_pos 2000 farStations 2 (by norm_num), far_relax2]

theorem far_path_none : dp_path_indices 2000 farStations = none := by
  rw [dp_path_indices]
  simp only [far_len]
  norm_num [far_dpv2]

/-- Witness for C4 on an input where the greedy fallback actually produces
the (empty) stop list, yet the label is still `"dynamic_programming"`. -/
theorem method_always_dp_witness :
    farStations ≠ [] ∧
    dp_path_indices 2000 farStations = none ∧
    (optimize_route 2000 farStations).optimization_method =
      "dynamic_programming" :=
  ⟨by simp [farStations], far_path_none,
    method_always_dp 2000 farStations (by simp [farStations])⟩

/-! ### Claim C6: empty corridor -/

/-- **C6.** With zero on-route stations the planner returns (rather than
raising): an empty stop list, zero total cost, `total_gallons =
route_distance / efficiency` rounded to 2 decimals, and the
`"no_stations"` label.  (In the embedding, `optimize_route` is a total
function, so the no-exception part is inherent.) -/
theorem empty_corridor_result (rd : ℚ) :
    (optimize_route rd []).fuel_stops = [] ∧
    (optimize_route rd []).total_fuel_cost = 0 ∧
    (optimize_route rd []).total_gallons =
      round2 (rd / FUEL_EFFICIENCY_MPG) ∧
    (optimize_route rd []).optimization_method = "no_stations" := by
  rw [optimize_route, if_pos rfl]
  exact ⟨rfl, rfl, rfl, rfl⟩

/-! ### Claim C8: total gallons is trip consumption, not purchases -/

/-- **C8.** For every planned route the result's `total_gallons` equals
`route_distance / efficiency` rounded to 2 decimals, independent of the
number of stops chosen and of the gallons purchased at those stops. -/
theorem total_gallons_is_consumption (rd : ℚ)
    (sts : List (FuelStation × ℚ)) :
    (optimize_route rd sts).total_gallons =
      round2 (rd / FUEL_EFFICIENCY_MPG) := by
  by_cases h : sts = []
  · subst h
    rw [optimize_route, if_pos rfl]
    rfl
  · rw [optimize_route, if_neg h]

/-! ### Claim C5: short routes -/

theorem stPrice_nonneg (sts : List (FuelStation × ℚ))
    (hprice : ∀ p ∈ sts, 0 ≤ p.1.retail_price) (k : ℕ) :
    0 ≤ stPrice sts k := by
  by_cases hk : k < sts.length
  · exact hprice (stGet sts k) (stGet_mem sts k hk)
  · rw [stPrice, stGet, List.getD_eq_default _ _ (by omega)]
    exact le_refl 0

theorem costOf_nonneg (sts : List (FuelStation × ℚ))
    (hprice : ∀ p ∈ sts, 0 ≤ p.1.retail_price) (i : ℕ) :
    0 ≤ costOf sts i := by
  rw [costOf]
  split_ifs
  · exact le_refl 0
  · have h50 : (0 : ℚ) ≤ VEHICLE_RANGE_MILES / FUEL_EFFICIENCY_MPG := by
      norm_num [VEHICLE_RANGE_MILES, FUEL_EFFICIENCY_MPG]
    exact mul_nonneg h50 (stPrice_nonneg sts hprice (i - 1))

theorem dpv_nonneg (rd : ℚ) (sts : List (FuelStation × ℚ))
    (hprice : ∀ p ∈ sts, 0 ≤ p.1.retail_price) :
    ∀ m j, j ≤ m → (0 : WithTop ℚ) ≤ dpv rd sts j := by
  intro m
  induction m with
  | zero =>
    intro j hj
    have h0 : j = 0 := by omega
    subst h0
    rw [dpv_zero]
  | succ m ih =>
    intro j hj
    rcases Nat.lt_succ_iff_lt_or_eq.mp (Nat.lt_succ_of_le hj) with h | h
    · exact ih j (by omega)
    · subst h
      rw [dpv_succ]
      rcases relaxFrom_inv rd sts (dpv rd sts) (m + 1) with h0 |
        ⟨k, hk, _, _, hfst, _⟩
      · rw [h0]
        exact le_top
      · rw [hfst]
        refine add_nonneg (ih k (by omega)) ?_
        rw [← WithTop.coe_zero, WithTop.coe_le_coe]
        exact costOf_nonneg sts hprice (m + 1)

theorem relax_end_short (rd : ℚ) (sts : List (FuelStation × ℚ))
    (hprice : ∀ p ∈ sts, 0 ≤ p.1.retail_price)
    (hrd : rd ≤ VEHICLE_RANGE_MILES) :
    relaxFrom rd sts (dpv rd sts) (sts.length + 1) =
      (((0 : ℚ) : WithTop ℚ), 0) := by
  have hcost : costOf sts (sts.length + 1) = 0 := by simp [costOf]
  rw [relaxFrom, List.range_succ_eq_map, List.foldl_cons]
  have hstep0 : relaxStep rd sts (dpv rd sts) (sts.length + 1) (⊤, -1) 0 =
      (((0 : ℚ) : WithTop ℚ), 0) := by
    rw [relaxStep]
    have hgap : ¬ (posOf rd sts (sts.length + 1) - posOf rd sts 0 >
        VEHICLE_RANGE_MILES) := by
      have h1 : posOf rd sts (sts.length + 1) = rd := by simp [posOf]
      have h2 : posOf rd sts 0 = 0 := by simp [posOf]
      rw [h1, h2, sub_zero]
      exact not_lt.mpr hrd
    rw [if_neg hgap, hcost, dpv_zero]
    have hlt : (0 : WithTop ℚ) + ((0 : ℚ) : WithTop ℚ) < (⊤, (-1 : Int)).1 := by
      simp
    rw [if_pos hlt]
    simp
  rw [hstep0]
  have hrest : ∀ (l : List ℕ),
      l.foldl (relaxStep rd sts (dpv rd sts) (sts.length + 1))
        (((0 : ℚ) : WithTop ℚ), 0) = (((0 : ℚ) : WithTop ℚ), 0) := by
    intro l
    induction l with
    | nil => rfl
    | cons a l ih =>
      rw [List.foldl_cons]
      have hstep : relaxStep rd sts (dpv rd sts) (sts.length + 1)
          (((0 : ℚ) : WithTop ℚ), 0) a = (((0 : ℚ) : WithTop ℚ), 0) := by
        rw [relaxStep]
        split_ifs with h1 h2
        · rfl
        · exfalso
          rw [hcost] at h2
          have hge : (0 : WithTop ℚ) ≤ dpv rd sts a + ((0 : ℚ) : WithTop ℚ) := by
            refine add_nonneg (dpv_nonneg rd sts hprice a a (le_refl a)) ?_
            simp
          have : (((0 : ℚ) : WithTop ℚ) : WithTop ℚ) = (0 : WithTop ℚ) := by
            simp
          rw [this] at h2
          exact absurd h2 (not_lt.mpr hge)
        · rfl
      rw [hstep]
      exact ih
  exact hrest _

theorem dpv_end_short (rd : ℚ) (sts : List (FuelStation × ℚ))
    (hprice : ∀ p ∈ sts, 0 ≤ p.1.retail_price)
    (hrd : rd ≤ VEHICLE_RANGE_MILES) :
    dpv rd sts (sts.length + 1) = ((0 : ℚ) : WithTop ℚ) := by
  rw [dpv_succ, relax_end_short rd sts hprice hrd]

theorem par_end_short (rd : ℚ) (sts : List (FuelStation × ℚ))
    (hprice : ∀ p ∈ sts, 0 ≤ p.1.retail_price)
    (hrd : rd ≤ VEHICLE_RANGE_MILES) :
    par rd sts (sts.length + 1) = 0 := by
  rw [par_succ, relax_end_short rd sts hprice hrd]

theorem dp_path_short (rd : ℚ) (sts : List (FuelStation × ℚ))
    (hprice : ∀ p ∈ sts, 0 ≤ p.1.retail_price)
    (hrd : rd ≤ VEHICLE_RANGE_MILES) :
    dp_path_indices rd sts = some [] := by
  rw [dp_path_indices]
  have hne : dpv rd sts (sts.length + 1) ≠ ⊤ := by
    rw [dpv_end_short rd sts hprice hrd]
    exact WithTop.coe_ne_top
  simp only [if_neg hne, Option.some.injEq]
  rw [backtrack_succ, par_end_short rd sts hprice hrd]
  have h1 : ¬ ((0 : Int) = -1) := by omega
  rw [if_neg h1]
  simp only [show Int.toNat 0 = 0 from rfl]
  rw [backtrack_par_zero]
  simp

/-- **C5 (amended).** For every station set with non-negative unit prices, if
`route_distance ≤ range` then the returned plan has zero stops and zero total
fuel cost.  (The unrestricted claim fails for a negative price, see the
counterexample.) -/
theorem short_route_zero_stops (rd : ℚ) (sts : List (FuelStation × ℚ))
    (hprice : ∀ p ∈ sts, 0 ≤ p.1.retail_price)
    (hrd : rd ≤ VEHICLE_RANGE_MILES) :
    (optimize_route rd sts).fuel_stops = [] ∧
    (optimize_route rd sts).total_fuel_cost = 0 := by
  have hround0 : round2 (0 : ℚ) = 0 := by norm_num [round2, roundTo, round_eq]
  by_cases h : sts = []
  · subst h
    rw [optimize_route, if_pos rfl]
    exact ⟨rfl, rfl⟩
  · have hfind : find_optimal_stops_dp rd sts = [] := by
      rw [find_eq_buildStops rd sts []
        (dp_path_short rd sts hprice hrd), buildStops]
      rfl
    rw [optimize_route, if_neg h]
    refine ⟨hfind, ?_⟩
    show round2 ((List.map _ (find_optimal_stops_dp rd sts)).sum) = 0
    rw [hfind]
    simpa using hround0

/-- The spec's short-route instance: 300-mile route, no stop, zero cost,
30.00 gallons. -/
theorem short_route_zero_stops_witness :
    (∀ p ∈ exampleStations, 0 ≤ p.1.retail_price) ∧
    ((300 : ℚ) ≤ VEHICLE_RANGE_MILES) ∧
    ((optimize_route 300 exampleStations).fuel_stops = [] ∧
      (optimize_route 300 exampleStations).total_fuel_cost = 0) ∧
    (optimize_route 300 exampleStations).total_gallons = 30 := by
  have h1 : ∀ p ∈ exampleStations, 0 ≤ p.1.retail_price := by
    intro p hp
    rw [exampleStations] at hp
    rcases List.mem_cons.mp hp with h | hp
    · subst h; norm_num [stationA]
    rcases List.mem_cons.mp hp with h | hp
    · subst h; norm_num [stationB]
    rcases List.mem_cons.mp hp with h | hp
    · subst h; norm_num [stationC]
    · exact absurd hp (List.not_mem_nil p)
  have h2 : (300 : ℚ) ≤ VEHICLE_RANGE_MILES := by
    norm_num [VEHICLE_RANGE_MILES]
  refine ⟨h1, h2, short_route_zero_stops 300 exampleStations h1 h2, ?_⟩
  rw [optimize_route, if_neg (by simp [exampleStations])]
  show round2 ((300 : ℚ) / FUEL_EFFICIENCY_MPG) = 30
  norm_num [round2, roundTo, round_eq, FUEL_EFFICIENCY_MPG]

/-- A station with a negative unit price — permitted by the data model, which
places no constraint on `retail_price`. -/
def negStation : FuelStation := ⟨"N", "9 Main St", "Nadir", "TX", 30, -99, -1⟩

/-- Negative-price scenario: one station at chainage 100 on a 300-mile
route. -/
def negStations : List (FuelStation × ℚ) := [(negStation, 100)]

theorem neg_len : negStations.length = 1 := rfl

theorem neg_pos0 : posOf 300 negStations 0 = 0 := rfl

theorem neg_pos1 : posOf 300 negStations 1 = 100 := rfl

theorem neg_pos2 : posOf 300 negStations 2 = 300 := rfl

theorem neg_dpv0 : dpv 300 negStations 0 = ((0 : ℚ) : WithTop ℚ) := rfl

theorem neg_cost1 : costOf negStations 1 = -50 := by
  show (if (1 : ℕ) = 1 + 1 then (0 : ℚ) else _) = -50
  norm_num [stPrice, stGet, negStations, negStation,
    VEHICLE_RANGE_MILES, FUEL_EFFICIENCY_MPG]

theorem neg_cost2 : costOf negStations 2 = 0 := by
  show (if (2 : ℕ) = 1 + 1 then (0 : ℚ) else _) = 0
  norm_num

theorem neg_relax1 :
    relaxFrom 300 negStations (dpv 300 negStations) 1 =
      (((-50 : ℚ) : WithTop ℚ), 0) := by
  norm_num [relaxFrom, relaxStep, List.range_succ, neg_pos0, neg_pos1,
    neg_cost1, neg_dpv0, VEHICLE_RANGE_MILES,
    WithTop.coe_lt_top, ← WithTop.coe_add, WithTop.coe_lt_coe,
    WithTop.coe_le_coe, -WithTop.coe_ofNat, -WithTop.LinearOrderedAddCommGroup.coe_neg,
    lt_top_iff_ne_top, ne_eq, WithTop.coe_ne_top]

theorem neg_dpv1 : dpv 300 negStations 1 = ((-50 : ℚ) : WithTop ℚ) := by
  rw [dpv_pos 300 negStations 1 (by norm_num), neg_relax1]

theorem neg_relax2 :
    relaxFrom 300 negStations (dpv 300 negStations) 2 =
      (((-50 : ℚ) : WithTop ℚ), 1) := by
  norm_num [relaxFrom, relaxStep, List.range_succ, neg_pos0, neg_pos1,
    neg_pos2, neg_cost2, neg_dpv0, neg_dpv1, VEHICLE_RANGE_MILES,
    WithTop.coe_lt_top, ← WithTop.coe_add, WithTop.coe_lt_coe,
    WithTop.coe_le_coe, -WithTop.coe_ofNat, -WithTop.LinearOrderedAddCommGroup.coe_neg,
    lt_top_iff_ne_top, ne_eq, WithTop.coe_ne_top]

theorem neg_dpv2 : dpv 300 negStations 2 = ((-50 : ℚ) : WithTop ℚ) := by
  rw [dpv_pos 300 negStations 2 (by norm_num), neg_relax2]

theorem neg_par2 : par 300 negStations 2 = 1 := by
  rw [par_pos 300 negStations 2 (by norm_num), neg_relax2]

theorem neg_par1 : par 300 negStations 1 = 0 := by
  rw [par_pos 300 negStations 1 (by norm_num), neg_relax1]

theorem neg_path : dp_path_indices 300 negStations = some [0] := by
  rw [dp_path_indices]
  simp only [neg_len]
  norm_num [neg_dpv2, WithTop.coe_ne_top]
  rw [backtrack_succ, neg_par2]
  simp only [show Int.toNat 1 = 1 from rfl]
  norm_num
  rw [backtrack_succ, neg_par1]
  simp only [show Int.toNat 0 = 0 from rfl]
  norm_num [backtrack_par_zero]

/-- **C5 counterexample.** The claim quantifies over every station set; with
a (permitted) negative unit price at chainage 100 and a 300-mile route, the
planner returns one stop with total fuel cost −50, not zero stops with zero
cost. -/
theorem short_route_claim_counterexample :
    (300 : ℚ) ≤ VEHICLE_RANGE_MILES ∧
    ¬ ((optimize_route 300 negStations).fuel_stops = [] ∧
       (optimize_route 300 negStations).total_fuel_cost = 0) := by
  have hfind : find_optimal_stops_dp 300 negStations =
      [mkFullTankStop negStation 100] := by
    rw [find_eq_buildStops 300 negStations [0] neg_path, buildStops]
    rfl
  constructor
  · norm_num [VEHICLE_RANGE_MILES]
  · rw [optimize_route, if_neg (by simp [negStations])]
    intro h
    obtain ⟨h1, _⟩ := h
    rw [hfind] at h1
    exact List.cons_ne_nil _ _ h1

/-! ### Claim C7: every emitted stop is a full-tank purchase -/

theorem mkFullTankStop_gallons (s : FuelStation) (c : ℚ) :
    (mkFullTankStop s c).gallons_needed = 50 := by
  show round2 (VEHICLE_RANGE_MILES / FUEL_EFFICIENCY_MPG) = 50
  norm_num [round2, roundTo, round_eq, VEHICLE_RANGE_MILES,
    FUEL_EFFICIENCY_MPG]

theorem mkFullTankStop_cost (s : FuelStation) (c : ℚ) :
    (mkFullTankStop s c).cost =
      round2 ((VEHICLE_RANGE_MILES / FUEL_EFFICIENCY_MPG) *
        s.retail_price) := rfl

theorem greedy_fold_shape (sts : List (FuelStation × ℚ)) :
    ∀ (l : List (FuelStation × ℚ)) (acc : List OptimizedFuelStop × ℚ × ℚ),
      (∀ a ∈ l, a ∈ sts) →
      (∀ s ∈ acc.1, ∃ p ∈ sts, s = mkFullTankStop p.1 p.2) →
      ∀ s ∈ (l.foldl greedyStep acc).1,
        ∃ p ∈ sts, s = mkFullTankStop p.1 p.2 := by
  intro l
  induction l with
  | nil => intro acc _ hacc s hs; exact hacc s hs
  | cons a l ih =>
    intro acc hl hacc s hs
    rw [List.foldl_cons] at hs
    refine ih _ (fun b hb => hl b (List.mem_cons_of_mem a hb)) ?_ s hs
    intro t ht
    rw [greedyStep] at ht
    split_ifs at ht
    · simp only [] at ht
      rcases List.mem_append.mp ht with h | h
      · exact hacc t h
      · have heq : t = mkFullTankStop a.1 a.2 := by simpa using h
        exact ⟨a, hl a (List.mem_cons_self a l), heq⟩
    · exact hacc t ht

theorem greedy_stops_shape (rd : ℚ) (sts : List (FuelStation × ℚ))
    (s : OptimizedFuelStop) (hs : s ∈ greedy_fallback rd sts) :
    ∃ p ∈ sts, s = mkFullTankStop p.1 p.2 := by
  rw [greedy_fallback] at hs
  exact greedy_fold_shape sts sts ([], VEHICLE_RANGE_MILES, 0)
    (fun a ha => ha) (by intro t ht; simp at ht) s hs

/-- **C7.** Every `FuelStop` emitted — by the DP backtrack and by the greedy
fallback alike — is the full-tank construction for some on-route station:
`gallons_needed = range/efficiency = 50` and `cost` is that station's unit
price times a full tank, rounded to 2 decimals, regardless of the distance
travelled on the incoming leg. -/
theorem full_tank_policy (rd : ℚ) (sts : List (FuelStation × ℚ))
    (stop : OptimizedFuelStop) (h : stop ∈ find_optimal_stops_dp rd sts) :
    stop.gallons_needed = 50 ∧
    ∃ p ∈ sts, stop = mkFullTankStop p.1 p.2 ∧
      stop.cost = round2 ((VEHICLE_RANGE_MILES / FUEL_EFFICIENCY_MPG) *
        p.1.retail_price) := by
  have hshape : ∃ p ∈ sts, stop = mkFullTankStop p.1 p.2 := by
    rw [find_optimal_stops_dp] at h
    split_ifs at h with hsts
    · exact absurd h (List.not_mem_nil stop)
    · rcases hdp : dp_path_indices rd sts with _ | idxs
      · rw [hdp] at h
        exact greedy_stops_shape rd sts stop h
      · rw [hdp] at h
        obtain ⟨hmem, _, _⟩ := dp_path_spec rd sts idxs hdp
        simp only [buildStops] at h
        obtain ⟨idx, hidx, heq⟩ := List.mem_map.mp h
        exact ⟨stGet sts idx, stGet_mem sts idx (hmem idx hidx), heq.symm⟩
  obtain ⟨p, hp, heq⟩ := hshape
  refine ⟨?_, p, hp, heq, ?_⟩
  · rw [heq]
    exact mkFullTankStop_gallons p.1 p.2
  · rw [heq]
    exact mkFullTankStop_cost p.1 p.2

/-- Witness for C7: the stop at chainage 450 emitted in the spec's concrete
scenario. -/
theorem full_tank_policy_witness :
    mkFullTankStop stationB 450 ∈ find_optimal_stops_dp 1200 exampleStations ∧
    ((mkFullTankStop stationB 450).gallons_needed = 50 ∧
      ∃ p ∈ exampleStations, mkFullTankStop stationB 450 =
          mkFullTankStop p.1 p.2 ∧
        (mkFullTankStop stationB 450).cost =
          round2 ((VEHICLE_RANGE_MILES / FUEL_EFFICIENCY_MPG) *
            p.1.retail_price)) := by
  have hm : mkFullTankStop stationB 450 ∈
      find_optimal_stops_dp 1200 exampleStations := by
    rw [find_eq_buildStops 1200 exampleStations [1, 2] ex_path]
    have hb : buildStops exampleStations [1, 2] =
        [mkFullTankStop stationB 450, mkFullTankStop stationC 900] := rfl
    rw [hb]
    exact List.mem_cons_self _ _
  exact ⟨hm, full_tank_policy 1200 exampleStations _ hm⟩

/-! ### Claim C9: ordering of the returned stops -/

/-- **C9 (amended).** For a chainage-sorted input with strictly positive unit
prices, the stations selected by the DP have strictly increasing underlying
chainages, and the returned stops' `miles_from_start` fields (chainages
rounded to 2 decimals) are non-decreasing.  Strict increase of the rounded
field fails in general: rounding can merge chainages less than a cent of a
mile apart (see the counterexample). -/
theorem dp_stops_chainage_mono (rd : ℚ) (sts : List (FuelStation × ℚ))
    (hsort : List.Chain' (fun (p q : FuelStation × ℚ) => p.2 ≤ q.2) sts)
    (hpos : ∀ p ∈ sts, 0 < p.1.retail_price)
    (idxs : List ℕ) (hdp : dp_path_indices rd sts = some idxs) :
    find_optimal_stops_dp rd sts = buildStops sts idxs ∧
    List.Chain' (fun a b => stPos sts a < stPos sts b) idxs ∧
    List.Chain' (fun s t : OptimizedFuelStop =>
      s.miles_from_start ≤ t.miles_from_start)
      (find_optimal_stops_dp rd sts) := by
  obtain ⟨hmem, hchain, hcost⟩ := dp_path_spec rd sts idxs hdp
  have hfin : dpv rd sts (sts.length + 1) ≠ ⊤ := by
    rw [hcost]
    exact WithTop.coe_ne_top
  have hfinall := steprel_chain_finite rd sts (sts.length + 1) hfin
    (idxs.map (· + 1)) 0 hchain
  have h1 : List.Chain' (StepRel rd sts)
      ((0 :: idxs.map (· + 1)) ++ [sts.length + 1]) := by
    rw [List.cons_append]
    exact hchain
  have h3 : List.Chain' (StepRel rd sts) (idxs.map (· + 1)) :=
    (List.chain'_append.mp h1).1.tail
  have h4 : List.Chain' (fun a b => StepRel rd sts (a + 1) (b + 1)) idxs :=
    (List.chain'_map _).mp h3
  have h5 := List.Chain'.iff_mem.mp h4
  have hstrict : List.Chain' (fun a b => stPos sts a < stPos sts b) idxs := by
    refine h5.imp ?_
    intro a b hab
    obtain ⟨ha, hb, hrel⟩ := hab
    refine steprel_stPos_lt rd sts hsort hpos a b hrel (hmem a ha)
      (hmem b hb) ?_
    exact hfinall (b + 1)
      (List.mem_cons_of_mem 0 (List.mem_map_of_mem (· + 1) hb))
  refine ⟨find_eq_buildStops rd sts idxs hdp, hstrict, ?_⟩
  rw [find_eq_buildStops rd sts idxs hdp, buildStops]
  rw [List.chain'_map]
  refine hstrict.imp ?_
  intro a b hab
  show round2 (stPos sts a) ≤ round2 (stPos sts b)
  exact roundTo_mono 2 (le_of_lt hab)

theorem examplePrices_pos : ∀ p ∈ exampleStations, 0 < p.1.retail_price := by
  intro p hp
  rw [exampleStations] at hp
  rcases List.mem_cons.mp hp with h | hp
  · subst h; norm_num [stationA]
  rcases List.mem_cons.mp hp with h | hp
  · subst h; norm_num [stationB]
  rcases List.mem_cons.mp hp with h | hp
  · subst h; norm_num [stationC]
  · exact absurd hp (List.not_mem_nil p)

/-- Witness for the amended C9 at the spec's concrete scenario. -/
theorem dp_stops_chainage_mono_witness :
    List.Chain' (fun (p q : FuelStation × ℚ) => p.2 ≤ q.2) exampleStations ∧
    (∀ p ∈ exampleStations, 0 < p.1.retail_price) ∧
    dp_path_indices 1200 exampleStations = some [1, 2] ∧
    (find_optimal_stops_dp 1200 exampleStations =
        buildStops exampleStations [1, 2] ∧
      List.Chain' (fun a b => stPos exampleStations a < stPos exampleStations b)
        [1, 2] ∧
      List.Chain' (fun s t : OptimizedFuelStop =>
        s.miles_from_start ≤ t.miles_from_start)
        (find_optimal_stops_dp 1200 exampleStations)) :=
  ⟨exampleStations_sorted, examplePrices_pos, ex_path,
    dp_stops_chainage_mono 1200 exampleStations exampleStations_sorted
      examplePrices_pos [1, 2] ex_path⟩

/-- Stations 0.008 miles apart, straddling mile 500 of a 1000-mile route:
both are forced stops and both round to `miles_from_start = 500.00`. -/
def stationD : FuelStation :=
  ⟨"D", "4 Main St", "Delta", "TX", 34, -103, 3⟩

def stationE : FuelStation :=
  ⟨"E", "5 Main St", "Echo", "TX", 35, -104, 3⟩

def twinStations : List (FuelStation × ℚ) :=
  [(stationD, 499996/1000), (stationE, 500004/1000)]

theorem twin_len : twinStations.length = 2 := rfl

theorem twin_pos0 : posOf 1000 twinStations 0 = 0 := rfl

theorem twin_pos1 : posOf 1000 twinStations 1 = 499996/1000 := rfl

theorem twin_pos2 : posOf 1000 twinStations 2 = 500004/1000 := rfl

theorem twin_pos3 : posOf 1000 twinStations 3 = 1000 := rfl

theorem twin_dpv0 : dpv 1000 twinStations 0 = ((0 : ℚ) : WithTop ℚ) := rfl

theorem twin_cost1 : costOf twinStations 1 = 150 := by
  show (if (1 : ℕ) = 2 + 1 then (0 : ℚ) else _) = 150
  norm_num [stPrice, stGet, twinStations, stationD,
    VEHICLE_RANGE_MILES, FUEL_EFFICIENCY_MPG]

theorem twin_cost2 : costOf twinStations 2 = 150 := by
  show (if (2 : ℕ) = 2 + 1 then (0 : ℚ) else _) = 150
  norm_num [stPrice, stGet, twinStations, stationE,
    VEHICLE_RANGE_MILES, FUEL_EFFICIENCY_MPG]

theorem twin_cost3 : costOf twinStations 3 = 0 := by
  show (if (3 : ℕ) = 2 + 1 then (0 : ℚ) else _) = 0
  norm_num

theorem twin_relax1 :
    relaxFrom 1000 twinStations (dpv 1000 twinStations) 1 =
      (((150 : ℚ) : WithTop ℚ), 0) := by
  norm_num [relaxFrom, relaxStep, List.range_succ, twin_pos0, twin_pos1,
    twin_cost1, twin_dpv0, VEHICLE_RANGE_MILES,
    WithTop.coe_lt_top, ← WithTop.coe_add, WithTop.coe_lt_coe,
    WithTop.coe_le_coe, -WithTop.coe_ofNat, lt_top_iff_ne_top, ne_eq,
    WithTop.coe_ne_top]

theorem twin_dpv1 : dpv 1000 twinStations 1 = ((150 : ℚ) : WithTop ℚ) := by
  rw [dpv_pos 1000 twinStations 1 (by norm_num), twin_relax1]

theorem twin_relax2 :
    relaxFrom 1000 twinStations (dpv 1000 twinStations) 2 =
      (((300 : ℚ) : WithTop ℚ), 1) := by
  norm_num [relaxFrom, relaxStep, List.range_succ, twin_pos0, twin_pos1,
    twin_pos2, twin_cost2, twin_dpv0, twin_dpv1, VEHICLE_RANGE_MILES,
    WithTop.coe_lt_top, ← WithTop.coe_add, WithTop.coe_lt_coe,
    WithTop.coe_le_coe, -WithTop.coe_ofNat, lt_top_iff_ne_top, ne_eq,
    WithTop.coe_ne_top]

theorem twin_dpv2 : dpv 1000 twinStations 2 = ((300 : ℚ) : WithTop ℚ) := by
  rw [dpv_pos 1000 twinStations 2 (by norm_num), twin_relax2]

theorem twin_par2 : par 1000 twinStations 2 = 1 := by
  rw [par_pos 1000 twinStations 2 (by norm_num), twin_relax2]

theorem twin_par1 : par 1000 twinStations 1 = 0 := by
  rw [par_pos 1000 twinStations 1 (by norm_num), twin_relax1]

theorem twin_relax3 :
    relaxFrom 1000 twinStations (dpv 1000 twinStations) 3 =
      (((300 : ℚ) : WithTop ℚ), 2) := by
  norm_num [relaxFrom, relaxStep, List.range_succ, twin_pos0, twin_pos1,
    twin_pos2, twin_pos3, twin_cost3, twin_dpv0, twin_dpv1, twin_dpv2,
    VEHICLE_RANGE_MILES,
    WithTop.coe_lt_top, ← WithTop.coe_add, WithTop.coe_lt_coe,
    WithTop.coe_le_coe, -WithTop.coe_ofNat, lt_top_iff_ne_top, ne_eq,
    WithTop.coe_ne_top]

theorem twin_dpv3 : dpv 1000 twinStations 3 = ((300 : ℚ) : WithTop ℚ) := by
  rw [dpv_pos 1000 twinStations 3 (by norm_num), twin_relax3]

theorem twin_par3 : par 1000 twinStations 3 = 2 := by
  rw [par_pos 1000 twinStations 3 (by norm_num), twin_relax3]

theorem twin_path : dp_path_indices 1000 twinStations = some [0, 1] := by
  rw [dp_path_indices]
  simp only [twin_len]
  norm_num [twin_dpv3, WithTop.coe_ne_top]
  rw [backtrack_succ, twin_par3]
  simp only [show Int.toNat 2 = 2 from rfl]
  norm_num
  rw [backtrack_succ, twin_par2]
  simp only [show Int.toNat 1 = 1 from rfl]
  norm_num
  rw [backtrack_succ, twin_par1]
  simp only [show Int.toNat 0 = 0 from rfl]
  norm_num [backtrack_par_zero]

/-- **C9 counterexample.** On a chainage-sorted input with strictly positive
prices, the DP plan can contain two stops sharing `miles_from_start`: with
stations at chainages 499.996 and 500.004 on a 1000-mile route both stops are
forced and both round to 500.00, so the stops' chainage fields are not
strictly increasing and two stops share a chainage. -/
theorem dp_stops_chainage_counterexample :
    List.Chain' (fun (p q : FuelStation × ℚ) => p.2 ≤ q.2) twinStations ∧
    (∀ p ∈ twinStations, 0 < p.1.retail_price) ∧
    (find_optimal_stops_dp 1000 twinStations).map
      (fun s => s.miles_from_start) = [500, 500] := by
  refine ⟨?_, ?_, ?_⟩
  · norm_num [twinStations, List.chain'_cons, List.chain'_singleton]
  · intro p hp
    rw [twinStations] at hp
    rcases List.mem_cons.mp hp with h | hp
    · subst h; norm_num [stationD]
    rcases List.mem_cons.mp hp with h | hp
    · subst h; norm_num [stationE]
    · exact absurd hp (List.not_mem_nil p)
  · rw [find_eq_buildStops 1000 twinStations [0, 1] twin_path]
    have hb : buildStops twinStations [0, 1] =
        [mkFullTankStop stationD (499996/1000),
          mkFullTankStop stationE (500004/1000)] := rfl
    rw [hb]
    norm_num [mkFullTankStop, round2, roundTo, round_eq]

/-! ### Claim C10: greedy fallback spacing -/

theorem getLast?_cons_eq {α : Type} (a : α) (l : List α) :
    (a :: l).getLast? = some (l.getLastD a) := by
  induction l generalizing a with
  | nil => rfl
  | cons b l ih =>
    rw [List.getLast?_cons_cons, ih b, List.getLastD_cons]

/-- The chainages chosen so far, with `0` for "no stop yet" — the fold's
`prev_chainage`. -/
def lastPos (chosen : List (FuelStation × ℚ)) : ℚ :=
  (chosen.map (fun p => p.2)).getLastD 0

theorem greedyChosen_fold_spec (rd : ℚ) :
    ∀ (l chosen : List (FuelStation × ℚ)),
      List.Chain' (fun a b => a + (VEHICLE_RANGE_MILES - 50) ≤ b)
        (0 :: chosen.map (fun p => p.2)) →
      List.Chain' (fun a b => a + (VEHICLE_RANGE_MILES - 50) ≤ b)
        (0 :: ((l.foldl greedyChosenStep
          (chosen, VEHICLE_RANGE_MILES, lastPos chosen)).1.map
            (fun p => p.2))) := by
  intro l
  induction l with
  | nil => intro chosen h; exact h
  | cons a l ih =>
    intro chosen h
    rw [List.foldl_cons, greedyChosenStep]
    split_ifs with hcond
    · have hnew : List.Chain' (fun a b => a + (VEHICLE_RANGE_MILES - 50) ≤ b)
          (0 :: (chosen ++ [a]).map (fun p => p.2)) := by
        rw [List.map_append, ← List.cons_append]
        rw [List.chain'_append]
        refine ⟨h, List.chain'_singleton _, ?_⟩
        intro x hx y hy
        rw [getLast?_cons_eq, Option.mem_def, Option.some.injEq] at hx
        have hy' : a.2 = y := by simpa using hy
        subst hy'
        rw [← hx]
        show (chosen.map (fun p => p.2)).getLastD 0 +
          (VEHICLE_RANGE_MILES - 50) ≤ a.2
        have : a.2 - lastPos chosen ≥ VEHICLE_RANGE_MILES - 50 := hcond
        rw [lastPos] at this
        linarith
      have hlast : lastPos (chosen ++ [a]) = a.2 := by
        rw [lastPos, List.map_append]
        exact List.getLastD_concat _ _ _
      have := ih (chosen ++ [a]) hnew
      rw [hlast] at this
      exact this
    · exact ih chosen h

theorem greedy_all_near (rd : ℚ) (sts : List (FuelStation × ℚ)) :
    ∀ (l : List (FuelStation × ℚ)),
      (∀ p ∈ l, p.2 < VEHICLE_RANGE_MILES - 50) →
      l.foldl greedyStep ([], VEHICLE_RANGE_MILES, 0) =
        ([], VEHICLE_RANGE_MILES, 0) := by
  intro l
  induction l with
  | nil => intro _; rfl
  | cons a l ih =>
    intro h
    rw [List.foldl_cons, greedyStep]
    have hcond : ¬ (a.2 - (0 : ℚ) ≥ VEHICLE_RANGE_MILES - 50) := by
      have := h a (List.mem_cons_self a l)
      push_neg
      linarith
    rw [if_neg hcond]
    exact ih (fun p hp => h p (List.mem_cons_of_mem a hp))

theorem greedy_fold_corresp :
    ∀ (l chosen : List (FuelStation × ℚ)) (cr pc : ℚ),
      l.foldl greedyStep
        (chosen.map (fun p => mkFullTankStop p.1 p.2), cr, pc) =
      (((l.foldl greedyChosenStep (chosen, cr, pc)).1).map
        (fun p => mkFullTankStop p.1 p.2),
       (l.foldl greedyChosenStep (chosen, cr, pc)).2) := by
  intro l
  induction l with
  | nil => intro chosen cr pc; rfl
  | cons a l ih =>
    intro chosen cr pc
    rw [List.foldl_cons, List.foldl_cons, greedyStep, greedyChosenStep]
    split_ifs with hcond
    · have := ih (chosen ++ [a]) VEHICLE_RANGE_MILES a.2
      rw [List.map_append] at this
      exact this
    · exact ih chosen cr pc

/-- **C10.** The greedy fallback's invariants: its stop list is exactly its
chosen `(station, chainage)` pairs materialized as full-tank stops; each
chosen chainage exceeds the previous chosen chainage (0 initially) by at
least `range − buffer = 450` miles; when no station lies at least 450 miles
past the previous stop it returns no stops at all — so a range-infeasible
route (one station at chainage 100 on a 2000-mile route) surfaces at the
public interface as a plan with zero stops, zero total cost and the
`"dynamic_programming"` label, with no error. -/
theorem greedy_fallback_spacing (rd : ℚ) (sts : List (FuelStation × ℚ)) :
    greedy_fallback rd sts =
      (greedy_chosen rd sts).map (fun p => mkFullTankStop p.1 p.2) ∧
    List.Chain' (fun a b => a + (VEHICLE_RANGE_MILES - 50) ≤ b)
      (0 :: (greedy_chosen rd sts).map (fun p => p.2)) ∧
    ((∀ p ∈ sts, p.2 < VEHICLE_RANGE_MILES - 50) →
      greedy_fallback rd sts = []) ∧
    ((optimize_route 2000 farStations).fuel_stops = [] ∧
      (optimize_route 2000 farStations).total_fuel_cost = 0 ∧
      (optimize_route 2000 farStations).optimization_method =
        "dynamic_programming") := by
  have hcorresp : greedy_fallback rd sts =
      (greedy_chosen rd sts).map (fun p => mkFullTankStop p.1 p.2) := by
    rw [greedy_fallback, greedy_chosen]
    have := greedy_fold_corresp sts [] VEHICLE_RANGE_MILES 0
    rw [List.map_nil] at this
    rw [this]
  refine ⟨hcorresp, ?_, ?_, ?_⟩
  · have h0 : List.Chain' (fun a b => a + (VEHICLE_RANGE_MILES - 50) ≤ b)
        (0 :: ([] : List (FuelStation × ℚ)).map (fun p => p.2)) := by
      simp
    have := greedyChosen_fold_spec rd sts [] h0
    rw [show lastPos [] = 0 from rfl] at this
    exact this
  · intro hnear
    rw [greedy_fallback, greedy_all_near rd sts sts hnear]
  · have hgreedy : greedy_fallback 2000 farStations = [] := by
      rw [greedy_fallback, farStations]
      rw [List.foldl_cons, greedyStep]
      have hcond : ¬ (((stationA, (100 : ℚ))).2 - (0 : ℚ) ≥
          VEHICLE_RANGE_MILES - 50) := by
        norm_num [VEHICLE_RANGE_MILES]
      rw [if_neg hcond]
      rfl
    have hfind : find_optimal_stops_dp 2000 farStations = [] := by
      rw [find_optimal_stops_dp, if_neg (by simp [farStations]),
        far_path_none]
      exact hgreedy
    have hround0 : round2 (0 : ℚ) = 0 := by
      norm_num [round2, roundTo, round_eq]
    rw [optimize_route, if_neg (by simp [farStations])]
    refine ⟨hfind, ?_, rfl⟩
    show round2 ((List.map _ (find_optimal_stops_dp 2000 farStations)).sum) = 0
    rw [hfind]
    simpa using hround0

/-- Witness for C10 on the range-infeasible single-station input. -/
theorem greedy_fallback_spacing_witness :
    (∀ p ∈ farStations, p.2 < VEHICLE_RANGE_MILES - 50) ∧
    greedy_fallback 2000 farStations = [] := by
  have hnear : ∀ p ∈ farStations, p.2 < VEHICLE_RANGE_MILES - 50 := by
    intro p hp
    rw [farStations] at hp
    rcases List.mem_cons.mp hp with h | hp
    · subst h; norm_num [VEHICLE_RANGE_MILES]
    · exact absurd hp (List.not_mem_nil p)
  exact ⟨hnear, (greedy_fallback_spacing 2000 farStations).2.2.1 hnear⟩
